import Mathlib

/-!
Formal model of the `random_structures` generation engine
(`src/random_structures/generating_functions.py`).

The Python code is shallowly embedded as follows:

* JSON-shaped runtime values are `JVal` (Python floats appear as `Rat`).
* A specification node (`dict[str, Any]`) is `Spec`, a record of the keys the
  engine ever reads (`type`, `method`, `load_ref`, `store_ref`, `max_depth`,
  `keys`, `type_elements`, `options`, `value`, `min_length`, `max_length`,
  `pattern`, `parameters`); an absent key is `none`.
* Randomness (`random.random`, `random.randint`, `random.choice`,
  `random.choices`) is an explicit oracle: a stream of naturals and a stream
  of rationals, consumed at an index `k` threaded through the computation.
  Theorems quantify over the oracle, so they hold for every random outcome.
* The mutable `Value` objects of the generating stack live in an arena
  (`Conf.nodes : Nat → Node`, with `Conf.next` the allocation frontier); the
  stack holds arena indices, head = Python list tail (top of stack).
* Python exceptions surface as `Except PyErr`; the engine loop is a fueled
  step function (`step`, `runN`), `Conf.result` being set exactly when the
  Python `generate` would return or raise.
* The statistical-distribution (`numpy`) and fake-data (`faker`) providers
  are external collaborators (spec section 1) and are not modelled; specs
  naming them hit the `defaultdict` null handler, like any unregistered key.
* `re.search`, the inner regex-AST interpreter, url-encoding and base64 are
  uninterpreted functions supplied by the oracle: no claim constrains their
  input-output behaviour, only how the engine uses their results.
-/

/-- A Python/JSON runtime value.  Floats are modelled as rationals. -/
inductive JVal where
  | null
  | bool (b : Bool)
  | int (n : Int)
  | num (q : Rat)
  | str (s : String)
  | arr (elems : List JVal)
  | obj (entries : List (JVal × JVal))

mutual

/-- Structural equality of values, used for Python dict-key comparison. -/
def JVal.beq : JVal → JVal → Bool
  | .null, .null => true
  | .bool a, .bool b => a == b
  | .int a, .int b => a == b
  | .num a, .num b => a == b
  | .str a, .str b => a == b
  | .arr xs, .arr ys => JVal.beqList xs ys
  | .obj xs, .obj ys => JVal.beqEntries xs ys
  | _, _ => false

/-- Pointwise `JVal.beq` on lists. -/
def JVal.beqList : List JVal → List JVal → Bool
  | [], [] => true
  | x :: xs, y :: ys => JVal.beq x y && JVal.beqList xs ys
  | _, _ => false

/-- Pointwise `JVal.beq` on entry lists. -/
def JVal.beqEntries : List (JVal × JVal) → List (JVal × JVal) → Bool
  | [], [] => true
  | (k, v) :: xs, (l, w) :: ys => (JVal.beq k l && JVal.beq v w) && JVal.beqEntries xs ys
  | _, _ => false

end

/-- Python dict insertion: a duplicate key overwrites the value in place,
a new key is appended (insertion order preserved). -/
def dictInsert (es : List (JVal × JVal)) (kv : JVal × JVal) : List (JVal × JVal) :=
  match es with
  | [] => [kv]
  | (k, v) :: rest =>
    if JVal.beq k kv.1 then (k, kv.2) :: rest else (k, v) :: dictInsert rest kv

/-- A Python exception kind as observed at the `generate` boundary. -/
inductive PyErr where
  | valueError
  | keyError
  | typeError
  | indexError
  | attributeError
  | validationError
deriving DecidableEq

/-- The shape of a spec node's `parameters` entry, as discriminated by
`register_simple_function`'s callback (None / scalar / list / dict). -/
inductive Params where
  | pnone
  | pscalar (v : JVal)
  | plist (xs : List JVal)
  | pdict (entries : List (String × JVal))

/-- A record key's `chance` entry: explicit null, numeric percentage,
or the string form consulted against the seen-key set. -/
inductive Chance where
  | cnull
  | cnum (p : Rat)
  | cstr (s : String)

/-- A specification node: the mapping keys read by the engine.
Record keys are tuples (name, value, repeat, chance); a name is either a
literal (non-dict) value or a sub-spec (dict).  Choice options are tuples
(chance, value). -/
inductive Spec where
  | mk
    (type? : Option String)
    (method? : Option String)
    (load_ref : Option String)
    (store_ref : Option String)
    (max_depth? : Option Nat)
    (keys : List (Option (Sum JVal Spec) × Option Spec × Option Int × Option Chance))
    (type_elements : Option Spec)
    (options : List (Option Rat × Option Spec))
    (value? : Option JVal)
    (min_length? : Option Int)
    (max_length? : Option Int)
    (pattern? : Option String)
    (params : Params)

/-- A record-key entry of a spec: (name, value, repeat, chance). -/
abbrev RKey := Option (Sum JVal Spec) × Option Spec × Option Int × Option Chance

/-- A choice-option entry of a spec: (chance, value). -/
abbrev COpt := Option Rat × Option Spec

def Spec.type? : Spec → Option String
  | .mk t _ _ _ _ _ _ _ _ _ _ _ _ => t

def Spec.method? : Spec → Option String
  | .mk _ m _ _ _ _ _ _ _ _ _ _ _ => m

def Spec.load_ref : Spec → Option String
  | .mk _ _ l _ _ _ _ _ _ _ _ _ _ => l

def Spec.store_ref : Spec → Option String
  | .mk _ _ _ s _ _ _ _ _ _ _ _ _ => s

def Spec.max_depth? : Spec → Option Nat
  | .mk _ _ _ _ d _ _ _ _ _ _ _ _ => d

def Spec.keys : Spec → List RKey
  | .mk _ _ _ _ _ ks _ _ _ _ _ _ _ => ks

def Spec.type_elements : Spec → Option Spec
  | .mk _ _ _ _ _ _ te _ _ _ _ _ _ => te

def Spec.options : Spec → List COpt
  | .mk _ _ _ _ _ _ _ os _ _ _ _ _ => os

def Spec.value? : Spec → Option JVal
  | .mk _ _ _ _ _ _ _ _ v _ _ _ _ => v

def Spec.min_length? : Spec → Option Int
  | .mk _ _ _ _ _ _ _ _ _ mn _ _ _ => mn

def Spec.max_length? : Spec → Option Int
  | .mk _ _ _ _ _ _ _ _ _ _ mx _ _ => mx

def Spec.pattern? : Spec → Option String
  | .mk _ _ _ _ _ _ _ _ _ _ _ p _ => p

def Spec.params : Spec → Params
  | .mk _ _ _ _ _ _ _ _ _ _ _ _ ps => ps

def RKey.name? (k : RKey) : Option (Sum JVal Spec) := k.1

def RKey.value? (k : RKey) : Option Spec := k.2.1

def RKey.repeat? (k : RKey) : Option Int := k.2.2.1

def RKey.chance? (k : RKey) : Option Chance := k.2.2.2

/-- The empty spec `\x7b\x7d`, substituted for unknown references and used as
the default for a record key's missing `value`. -/
def emptySpec : Spec := .mk none none none none none [] none [] none none none none .pnone

/-- The process-wide reference table `Structure_Generator.GLOBALS`
(a class attribute: one mutable dict shared by every instance). -/
abbrev Globals := String → Option Spec

/-- The registration half of `parse_specif`: `if specif.get("store_ref"):`
(a falsy, i.e. empty, name does not register). -/
def storeStep (g : Globals) (s : Spec) : Globals :=
  match s.store_ref with
  | some n => if n = "" then g else Function.update g n (some s)
  | none => g

mutual

/-- `Structure_Generator.parse_specif`: pre-order walk registering every
`store_ref` node into the shared table, recursing into array element specs,
record key values and choice option values.  `none` mirrors the
`if specif is None: return` guard. -/
def parse_specif (g : Globals) : Option Spec → Globals
  | none => g
  | some s =>
    match s with
    | .mk t _ _ _ _ ks te os _ _ _ _ _ =>
      let g1 := storeStep g s
      match t with
      | some "array" => parse_specif g1 te
      | some "record" => parseKeys g1 ks
      | some "choice" => parseOpts g1 os
      | _ => g1
termination_by o => sizeOf o
decreasing_by
  all_goals simp_wf
  all_goals omega

/-- Walk of `specif.get("keys", [])` during `parse_specif`. -/
def parseKeys (g : Globals) : List RKey → Globals
  | [] => g
  | k :: ks => parseKeys (parse_specif g k.2.1) ks
termination_by ks => sizeOf ks
decreasing_by
  all_goals obtain ⟨a, b, c, d⟩ := k
  all_goals simp_wf
  all_goals omega

/-- Walk of `specif.get("options", [])` during `parse_specif`. -/
def parseOpts (g : Globals) : List COpt → Globals
  | [] => g
  | o :: os => parseOpts (parse_specif g o.2) os
termination_by os => sizeOf os
decreasing_by
  all_goals obtain ⟨a, b⟩ := o
  all_goals simp_wf
  all_goals omega

end

/-! ### Python `%` string formatting (the subset the enum leaf can meet)

`generate_string_enum` computes `pattern % enum_id`.  We model the `%d`
conversion with an optional `0` flag and width, `%%` escapes, and the Python
errors: an unsupported conversion character raises `ValueError`, while a
pattern whose directives do not consume exactly the one argument raises
`TypeError` (`not all arguments converted` / `not enough arguments`). -/

/-- Decimal digits of `n`, most significant first, prepended to `acc`. -/
def natDecAux : Nat → List Char → List Char
  | 0, acc => acc
  | n + 1, acc =>
    natDecAux ((n + 1) / 10) (Char.ofNat (48 + (n + 1) % 10) :: acc)
termination_by n _ => n
decreasing_by
  simp_wf
  omega

/-- Decimal rendering of a natural number (Python `str`/`%d` of a non-negative
int). -/
def natDec (n : Nat) : List Char :=
  if n = 0 then ['0'] else natDecAux n []

/-- Leading-digit scanner for a `%` directive's width field. -/
def readWidth : List Char → Nat → Nat × List Char
  | c :: cs, acc =>
    if '0' ≤ c ∧ c ≤ '9' then readWidth cs (acc * 10 + (c.toNat - 48))
    else (acc, c :: cs)
  | [], acc => (acc, [])

/-- One `%`-directive: zero flag and width (only `d` conversions occur). -/
structure Directive where
  zeroFlag : Bool
  width : Nat
deriving DecidableEq

theorem readWidth_len (cs : List Char) (acc : Nat) :
    (readWidth cs acc).2.length ≤ cs.length := by
  induction cs generalizing acc with
  | nil => simp [readWidth]
  | cons c cs ih =>
    simp only [readWidth]
    split
    case isTrue => exact Nat.le_succ_of_le (ih _)
    case isFalse => simp

/-- Scan a format string into literal text around at most one consuming
directive.  Returns `(pre, directive?, post)`; a directive with an
unsupported conversion character is a `ValueError`. -/
def scanFmt : List Char → Except PyErr (List Char × Option (Directive × List Char))
  | [] => .ok ([], none)
  | '%' :: '%' :: cs => do
    let (pre, rest) ← scanFmt cs
    .ok ('%' :: pre, rest)
  | '%' :: cs =>
    match hw : readWidth cs 0 with
    | (w, 'd' :: cs2) => do
      let (post, rest) ← scanFmt cs2
      match rest with
      | none => .ok ([], some (⟨cs.head? = some '0', w⟩, post))
      | some _ => .error .typeError
    | _ => .error .valueError
  | c :: cs => do
    let (pre, rest) ← scanFmt cs
    .ok (c :: pre, rest)
termination_by cs => cs.length
decreasing_by
  all_goals simp_wf
  all_goals try omega
  have h := readWidth_len cs 0
  rw [hw] at h
  simp at h
  omega

/-- Pad `ds` on the left to width `w`, with `'0'` under the zero flag and a
space otherwise. -/
def padTo (zf : Bool) (w : Nat) (ds : List Char) : List Char :=
  List.replicate (w - ds.length) (if zf then '0' else ' ') ++ ds

/-- Python `pattern % n` for a natural number argument, as used by
`generate_string_enum`.  A pattern with no consuming directive (or more than
one) raises `TypeError`, like Python's `not all arguments converted`. -/
def pyMod (pattern : String) (n : Nat) : Except PyErr String := do
  let (pre, rest) ← scanFmt pattern.data
  match rest with
  | none => .error .typeError
  | some (d, post) => .ok (String.mk (pre ++ padTo d.zeroFlag d.width (natDec n) ++ post))

/-! ### The regex synthesizer's retry wrapper (`word_from_regex`)

The inner generative interpreter `word_from_ast` (and the `re` parser it
feeds on) is modelled as an oracle `cand : Nat → Except Unit String` giving
the candidate produced by attempt `i`, or the exception the attempt raised;
`search r` models `re.search(regex, r)` on the candidate.  The wrapper is
translated literally: up to 200 attempts inside one `try`, accepting the
first candidate that is long enough and passes the re-check; an exception
is logged and turns into `""`; an exhausted loop returns the last
candidate. -/

/-- The `for _ in range(200)` loop of `word_from_regex`: `fuel` attempts
remain, `i` attempts were made, `last` is the previous candidate (returned
when the loop exhausts, like Python's leaked loop variable `result`). -/
def word_from_regex_go (cand : Nat → Except Unit String) (search : String → Bool)
    (min_length : Nat) : Nat → Nat → String → String
  | 0, _, last => last
  | fuel + 1, i, _ =>
    match cand i with
    | .error _ => ""
    | .ok r =>
      if min_length ≤ r.length ∧ search r then r
      else word_from_regex_go cand search min_length fuel (i + 1) r

/-- `word_from_regex(regex, min_length)`: retry synthesis up to 200 times;
accept a candidate only if its length reaches `min_length` and it passes
`re.search` against the original pattern; absorb any exception as `""`;
after exhausting the retries return the last candidate unconditionally. -/
def word_from_regex (cand : Nat → Except Unit String) (search : String → Bool)
    (min_length : Nat) : String :=
  word_from_regex_go cand search min_length 200 0 ""

/-! ### The generation engine -/

/-- `State`: state of a specification node on the generating stack. -/
inductive NState where
  | DELAYED
  | TO_BUILD
  | DONE
  | TRUNCATED
deriving DecidableEq

/-- The `value` attribute of a pending `Value`: a plain (JSON) value, a
record's (name-node, value-node) pair list, or an array's child-node list. -/
inductive NVal where
  | j (v : JVal)
  | pairs (ps : List (Nat × Nat))
  | kids (ks : List Nat)

/-- A `Value` on the generating stack (arena slot). -/
structure Node where
  spec : Option Spec
  state : NState
  value : NVal
  sons : List Nat
  depth : Nat
  scope : Option Nat

/-- A machine configuration: the arena, the stack (head = top), the scope
arena, the `overall_size` counter, the oracle cursor `k`, the finished
result, and a ghost log of every popped index (most recent first). -/
structure Conf where
  nodes : Nat → Node
  next : Nat
  stack : List Nat
  scopes : Nat → List (String × Nat)
  nscopes : Nat
  size : Nat
  k : Nat
  result : Option (Except PyErr JVal)
  trace : List Nat

/-- The random/external oracle: `nat` feeds `randint`-style draws, `rat`
feeds `random.random()`, `synth k i r` is the candidate (or exception) of
attempt `i` of the regex interpreter for the call at cursor `k`, `search`
models `re.search`, and the two encoders are uninterpreted. -/
structure Oracle where
  nat : Nat → Nat
  rat : Nat → Rat
  synth : Nat → Nat → String → Except Unit String
  search : String → String → Bool
  quote_plus : String → String
  b64encode : String → String

/-- Generator-instance environment: the reference table visible at
generation time, the `max_depth`/`max_size` configuration, the oracle. -/
structure Env where
  globals : Globals
  max_depth : Nat
  max_size : Option Nat
  o : Oracle

def setNode (c : Conf) (i : Nat) (n : Node) : Conf :=
  {c with nodes := Function.update c.nodes i n}

/-- Allocate a fresh arena slot. -/
def allocNode (c : Conf) (n : Node) : Nat × Conf :=
  (c.next, {c with nodes := Function.update c.nodes c.next n, next := c.next + 1})

/-- `random.randint(a, b)`: inclusive uniform draw; raises `ValueError`
when `b < a`. -/
def randint (o : Oracle) (k : Nat) (a b : Int) : Except PyErr (Int × Nat) :=
  if b < a then .error .valueError
  else .ok (a + (o.nat k : Int) % (b - a + 1), k + 1)

/-- `random.choice(xs)`: uniform pick; raises `IndexError` on an empty
sequence. -/
def pychoice (o : Oracle) (k : Nat) (xs : List JVal) : Except PyErr (JVal × Nat) :=
  match xs with
  | [] => .error .indexError
  | _ => .ok (xs.getD (o.nat k % xs.length) .null, k + 1)

/-- Pydantic lax coercion to `int` (ints, integral floats, numeric
strings). -/
def JVal.toInt? : JVal → Option Int
  | .int n => some n
  | .num q => if q.den = 1 then some q.num else none
  | .str s => s.toInt?
  | _ => none

/-- Pydantic lax coercion to `float`. -/
def JVal.toRat? : JVal → Option Rat
  | .int n => some (n : Rat)
  | .num q => some q
  | _ => none

def plookup (es : List (String × JVal)) (key : String) : Option JVal :=
  match es.find? (fun e => e.1 == key) with
  | some e => some e.2
  | none => none

/-- Keyword arguments must all be declared parameters. -/
def keysSub (es : List (String × JVal)) (allowed : List String) : Bool :=
  es.all (fun e => allowed.contains e.1)

def intArg (v : JVal) : Except PyErr Int :=
  match v.toInt? with
  | some n => .ok n
  | none => .error .validationError

def optIntArg : Option JVal → Int → Except PyErr Int
  | none, d => .ok d
  | some v, _ => intArg v

def ratArg (v : JVal) : Except PyErr Rat :=
  match v.toRat? with
  | some q => .ok q
  | none => .error .validationError

/-- Argument validation of `generate_integer_uniform(min_val=0, max_val=9)`
under `register_simple_function`'s calling convention. -/
def intUniformArgs : Params → Except PyErr (Int × Int)
  | .pnone => .ok (0, 9)
  | .pscalar v => do .ok (← intArg v, 9)
  | .plist [] => .ok (0, 9)
  | .plist [a] => do .ok (← intArg a, 9)
  | .plist [a, b] => do .ok (← intArg a, ← intArg b)
  | .plist _ => .error .typeError
  | .pdict es =>
    if keysSub es ["min_val", "max_val"] then do
      .ok (← optIntArg (plookup es "min_val") 0, ← optIntArg (plookup es "max_val") 9)
    else .error .validationError

/-- A generation-step handler, as stored in `CALLBACKS`. -/
abbrev Handler := Env → Conf → Nat → Node → Spec → Except PyErr Conf

/-- `register_simple_function`: the wrapped function computes a value from
the declared parameters (consuming oracle draws only) and the callback
transitions the node straight to DONE. -/
def simpleCallback (compute : Oracle → Nat → Params → Except PyErr (JVal × Nat)) : Handler :=
  fun env c i n sp => do
    let (res, k2) ← compute env.o c.k sp.params
    .ok (setNode {c with k := k2} i {n with state := .DONE, value := .j res})

def generate_integer_uniform : Handler :=
  simpleCallback fun o k ps => do
    let (a, b) ← intUniformArgs ps
    let (r, k1) ← randint o k a b
    .ok (.int r, k1)

/-- Shared body of `generate_integer_choice` / `generate_string_choice`:
`*choices`, uniform pick, empty list gives None. -/
def chooseCompute (o : Oracle) (k : Nat) (ps : Params) : Except PyErr (JVal × Nat) := do
  let xs ← (match ps with
    | .pnone => .ok []
    | .pscalar v => .ok [v]
    | .plist xs => .ok xs
    | .pdict [] => .ok ([] : List JVal)
    | .pdict _ => .error .typeError)
  match xs with
  | [] => .ok (.null, k)
  | _ => pychoice o k xs

def generate_integer_choice : Handler := simpleCallback chooseCompute

def generate_string_choice : Handler := simpleCallback chooseCompute

/-- Argument validation of `generate_boolean(probability=50.0)`. -/
def boolArgs : Params → Except PyErr Rat
  | .pnone => .ok 50
  | .pscalar v => ratArg v
  | .plist [] => .ok 50
  | .plist [p] => ratArg p
  | .plist _ => .error .typeError
  | .pdict es =>
    if keysSub es ["probability"] then
      match plookup es "probability" with
      | none => .ok 50
      | some v => ratArg v
    else .error .validationError

def generate_boolean : Handler :=
  simpleCallback fun o k ps => do
    let p ← boolArgs ps
    .ok (.bool (o.rat k * 100 < p), k + 1)

/-! ### String alphabet table (`string` module constants, ASCII) -/

def ascii_lowercase : String := "abcdefghijklmnopqrstuvwxyz"

def ascii_uppercase : String := "ABCDEFGHIJKLMNOPQRSTUVWXYZ"

def ascii_letters : String := ascii_lowercase ++ ascii_uppercase

def digitsAlphabet : String := "0123456789"

def hexdigitsAlphabet : String := "0123456789abcdefABCDEF"

def octdigitsAlphabet : String := "01234567"

def punctuationAlphabet : String := "!\"#$%&\x27()*+,-./:;<=>?@[\\]^_\x60\x7b|\x7d~"

def whitespaceAlphabet : String := " \t\n\r\x0b\x0c"

def printableAlphabet : String :=
  digitsAlphabet ++ ascii_letters ++ punctuationAlphabet ++ whitespaceAlphabet

def ascii_letters_ : String := ascii_letters ++ "_"

/-- `_ALPHABETS.get`: named alphabets. -/
def alphabets : String → Option String
  | "ascii_letters" => some ascii_letters
  | "ascii_lowercase" => some ascii_lowercase
  | "ascii_uppercase" => some ascii_uppercase
  | "digits" => some digitsAlphabet
  | "hexdigits" => some hexdigitsAlphabet
  | "octdigits" => some octdigitsAlphabet
  | "printable" => some printableAlphabet
  | "punctuation" => some punctuationAlphabet
  | "whitespace" => some whitespaceAlphabet
  | "ascii_letters_" => some ascii_letters_
  | _ => none

/-- Argument validation of `generate_string(min_length=1, max_length=16,
alphabet="ascii_letters_", fixed_alphabet=None, encoding=None)`; the last
three parameters are unannotated, hence unvalidated. -/
def stringArgs : Params → Except PyErr (Int × Int × JVal × JVal × JVal)
  | .pnone => .ok (1, 16, .str "ascii_letters_", .null, .null)
  | .pscalar v => do .ok (← intArg v, 16, .str "ascii_letters_", .null, .null)
  | .plist [] => .ok (1, 16, .str "ascii_letters_", .null, .null)
  | .plist [a] => do .ok (← intArg a, 16, .str "ascii_letters_", .null, .null)
  | .plist [a, b] => do .ok (← intArg a, ← intArg b, .str "ascii_letters_", .null, .null)
  | .plist [a, b, c] => do .ok (← intArg a, ← intArg b, c, .null, .null)
  | .plist [a, b, c, d] => do .ok (← intArg a, ← intArg b, c, d, .null)
  | .plist [a, b, c, d, e] => do .ok (← intArg a, ← intArg b, c, d, e)
  | .plist _ => .error .typeError
  | .pdict es =>
    if keysSub es ["min_length", "max_length", "alphabet", "fixed_alphabet", "encoding"] then do
      let mn ← optIntArg (plookup es "min_length") 1
      let mx ← optIntArg (plookup es "max_length") 16
      .ok (mn, mx, (plookup es "alphabet").getD (.str "ascii_letters_"),
        (plookup es "fixed_alphabet").getD .null, (plookup es "encoding").getD .null)
    else .error .validationError

/-- `random.choices(alphabet, k=m)` starting at oracle cursor `k`. -/
def drawChars (o : Oracle) (alph : List Char) : Nat → Nat → List Char
  | _, 0 => []
  | k, m + 1 => alph.getD (o.nat k % alph.length) 'a' :: drawChars o alph (k + 1) m

def generate_string : Handler :=
  simpleCallback fun o k ps => do
    let (mn, mx, alphv, fixedv, encv) ← stringArgs ps
    let alph : String :=
      match fixedv with
      | .str s => s
      | _ =>
        match alphv with
        | .str name => (alphabets name).getD ascii_letters_
        | _ => ascii_letters_
    let (len, k1) ← randint o k mn mx
    let m := len.toNat
    if alph.data.isEmpty ∧ m ≠ 0 then .error .indexError
    else
      let res := String.mk (drawChars o alph.data k1 m)
      let res :=
        match encv with
        | .str "urlencoded" => o.quote_plus res
        | .str "base64" => o.b64encode res
        | _ => res
      .ok (.str res, k1 + m)

/-- Argument validation of `generate_string_from_regex(regex, min_length=0)`:
`regex` is a required `str`. -/
def regexArgs : Params → Except PyErr (String × Int)
  | .pnone => .error .validationError
  | .pscalar (.str r) => .ok (r, 0)
  | .pscalar _ => .error .validationError
  | .plist [.str r] => .ok (r, 0)
  | .plist [.str r, m] => do .ok (r, ← intArg m)
  | .plist _ => .error .validationError
  | .pdict es =>
    if keysSub es ["regex", "min_length"] then
      match plookup es "regex" with
      | some (.str r) => do .ok (r, ← optIntArg (plookup es "min_length") 0)
      | _ => .error .validationError
    else .error .validationError

def generate_string_from_regex : Handler :=
  simpleCallback fun o k ps => do
    let (r, mn) ← regexArgs ps
    .ok (.str (word_from_regex (fun i => o.synth k i r) (o.search r) mn.toNat), k + 1)

def generate_fixed : Handler := fun _ c i n sp =>
  .ok (setNode c i {n with state := .DONE, value := .j (sp.value?.getD .null)})

/-- The `defaultdict` fallback `_null_callback`. -/
def null_callback : Handler := fun _ c i n _ =>
  .ok (setNode c i {n with state := .DONE, value := .j .null})

/-- `Scope.get_value`: read of a `collections.Counter` entry (default 0). -/
def countOf (l : List (String × Nat)) (p : String) : Nat :=
  match l.find? (fun e => e.1 == p) with
  | some e => e.2
  | none => 0

/-- `Scope.get_value`: the post-read increment of the counter entry. -/
def bumpCount : List (String × Nat) → String → List (String × Nat)
  | [], p => [(p, 1)]
  | e :: rest, p => if e.1 == p then (e.1, e.2 + 1) :: rest else e :: bumpCount rest p

def generate_string_enum : Handler := fun _ c i n sp => do
  let pattern := sp.pattern?.getD "%d"
  let pr :=
    match n.scope with
    | some sid => (countOf (c.scopes sid) pattern,
        {c with scopes := Function.update c.scopes sid (bumpCount (c.scopes sid) pattern)})
    | none => (0, c)
  let res ← pyMod pattern pr.1
  .ok (setNode pr.2 i {n with state := .DONE, value := .j (.str res)})

/-- Read a node's value as a plain value (`val.value` where a JSON value is
expected; the null default mirrors `Value.value = None`). -/
def getJVal : NVal → JVal
  | .j v => v
  | _ => .null

/-! ### Composite handlers -/

/-- `done(value, parent)`: a `Value` already computed. -/
def doneNode (parent : Node) (v : JVal) : Node :=
  { spec := some emptySpec, state := .DONE, value := .j v, sons := [],
    depth := parent.depth + 1, scope := none }

/-- `new_value(specification, parent, scope)`: a `Value` not yet computed. -/
def newNode (s : Spec) (parent : Node) (sid : Option Nat) : Node :=
  { spec := some s, state := .DELAYED, value := .j .null, sons := [],
    depth := parent.depth + 1, scope := sid }

/-- Presence evaluation for one repetition of a record key.  Note that the
tracking set `keys_there` is created empty by `generate_record` and never
added to afterwards. -/
def recPresence (o : Oracle) (k : Nat) (keysThere : List String) : Chance → Bool × Nat
  | .cnull => (true, k)
  | .cnum p => (o.rat k * 100 < p, k + 1)
  | .cstr s =>
    match s.data with
    | '!' :: restCh => (!(keysThere.contains (String.mk restCh)), k)
    | _ => (keysThere.contains s, k)

/-- The `for _ in range(repeats)` loop of `generate_record`, accumulating
the (name, value) pair list and the `to_be_done` children in order. -/
def recReps (o : Oracle) (parent : Node) (sid : Nat) (key : RKey)
    : Nat → Conf → List String → List (Nat × Nat) → List Nat
    → Except PyErr (Conf × List (Nat × Nat) × List Nat)
  | 0, c, _, pairs, tbd => .ok (c, pairs, tbd)
  | m + 1, c, keysThere, pairs, tbd =>
    let pres := recPresence o c.k keysThere (key.chance?.getD (.cnum 100))
    let c0 := {c with k := pres.2}
    if pres.1 then
      match key.name? with
      | none => .error .keyError
      | some (.inl v) =>
        let a1 := allocNode c0 (doneNode parent v)
        let a2 := allocNode a1.2 (newNode (key.value?.getD emptySpec) parent (some sid))
        recReps o parent sid key m a2.2 keysThere
          (pairs ++ [(a1.1, a2.1)]) (tbd ++ [a2.1])
      | some (.inr s) =>
        let a1 := allocNode c0 (newNode s parent (some sid))
        let a2 := allocNode a1.2 (newNode (key.value?.getD emptySpec) parent (some sid))
        recReps o parent sid key m a2.2 keysThere
          (pairs ++ [(a1.1, a2.1)]) (tbd ++ [a1.1, a2.1])
    else recReps o parent sid key m c0 keysThere pairs tbd

/-- The `for key in specification.get("keys", ())` loop of
`generate_record`. -/
def recKeys (o : Oracle) (parent : Node) (sid : Nat)
    : List RKey → Conf → List String → List (Nat × Nat) → List Nat
    → Except PyErr (Conf × List (Nat × Nat) × List Nat)
  | [], c, _, pairs, tbd => .ok (c, pairs, tbd)
  | key :: rest, c, keysThere, pairs, tbd => do
    let r ← recReps o parent sid key ((key.repeat?.getD 1).toNat) c keysThere pairs tbd
    recKeys o parent sid rest r.1 keysThere r.2.1 r.2.2

def generate_record : Handler := fun env c i n sp =>
  match n.state with
  | .DELAYED =>
    let sid := c.nscopes
    let c1 := {c with scopes := Function.update c.scopes sid [], nscopes := sid + 1}
    match recKeys env.o n sid sp.keys c1 [] [] [] with
    | .error e => .error e
    | .ok (c2, pairs, tbd) =>
      if tbd.isEmpty then
        .ok (setNode c2 i {n with state := .DONE, value := .j (.obj [])})
      else
        .ok (setNode c2 i {n with state := .TO_BUILD, value := .pairs pairs, sons := tbd})
  | .TO_BUILD =>
    let ps := match n.value with | .pairs ps => ps | _ => []
    let entries := ps.foldl (fun acc kv =>
      if (c.nodes kv.1).state = .DONE ∧ (c.nodes kv.2).state = .DONE then
        dictInsert acc (getJVal (c.nodes kv.1).value, getJVal (c.nodes kv.2).value)
      else acc) []
    .ok (setNode c i {n with state := .DONE, value := .j (.obj entries)})
  | _ => .ok c

/-- Allocate `m` array children sharing one element spec and scope. -/
def allocKids (c : Conf) (tmpl : Node) : Nat → List Nat × Conf
  | 0 => ([], c)
  | m + 1 =>
    let a := allocNode c tmpl
    let rest := allocKids a.2 tmpl m
    (a.1 :: rest.1, rest.2)

def generate_array : Handler := fun env c i n sp =>
  match n.state with
  | .DELAYED =>
    let sid := c.nscopes
    let c1 := {c with scopes := Function.update c.scopes sid [], nscopes := sid + 1}
    let mn := sp.min_length?.getD 0
    let mx := sp.max_length?.getD (mn + 4)
    match randint env.o c1.k mn mx with
    | .error e => .error e
    | .ok (len, k1) =>
      let c2 := {c1 with k := k1}
      let tmpl := newNode (sp.type_elements.getD emptySpec) n (some sid)
      let ac := allocKids c2 tmpl len.toNat
      .ok (setNode ac.2 i {n with state := .TO_BUILD, value := .kids ac.1, sons := ac.1})
  | .TO_BUILD =>
    let ks := match n.value with | .kids l => l | _ => []
    .ok (setNode c i
      {n with state := .DONE, value := .j (.arr (ks.map (fun j => getJVal (c.nodes j).value)))})
  | _ => .ok c

/-- The option walk of `generate_choice`: subtract each option's chance
from the roll until it falls below one; on a hit the node's own spec is
replaced (state untouched); fallthrough resolves to null, DONE. -/
def choiceWalk (c : Conf) (i : Nat) (n : Node) (total : Nat) : Rat → List COpt → Conf
  | _, [] => setNode c i {n with state := .DONE, value := .j .null}
  | r, o :: rest =>
    let chance := o.1.getD (100 / (total : Rat))
    if r < chance then setNode c i {n with spec := o.2}
    else choiceWalk c i n total (r - chance) rest

def generate_choice : Handler := fun env c i n sp =>
  let r := env.o.rat c.k * 100
  let c1 := {c with k := c.k + 1}
  .ok (choiceWalk c1 i n sp.options.length r sp.options)

/-! ### Dispatch and the engine loop -/

/-- `_type_alias`: number is an alias for integer. -/
def aliasType : Option String → Option String
  | some "number" => some "integer"
  | t => t

/-- `CALLBACKS[(type, method)]`: the registered base handlers; any other
key resolves to the `defaultdict` null handler.  The `numpy` and `faker`
provider handlers are external collaborators and are not modelled, so their
keys also fall to the default. -/
def dispatch (env : Env) (c : Conf) (i : Nat) (n : Node) (sp : Spec) : Except PyErr Conf :=
  match aliasType sp.type?, sp.method? with
  | some "integer", none => generate_integer_uniform env c i n sp
  | some "integer", some "uniform" => generate_integer_uniform env c i n sp
  | some "integer", some "choice" => generate_integer_choice env c i n sp
  | some "bool", none => generate_boolean env c i n sp
  | some "fixed", none => generate_fixed env c i n sp
  | some "constant", none => generate_fixed env c i n sp
  | some "choice", none => generate_choice env c i n sp
  | some "string", none => generate_string env c i n sp
  | some "string", some "enum" => generate_string_enum env c i n sp
  | some "string", some "choice" => generate_string_choice env c i n sp
  | some "string", some "regex" => generate_string_from_regex env c i n sp
  | some "record", none => generate_record env c i n sp
  | some "array", none => generate_array env c i n sp
  | _, _ => null_callback env c i n sp

/-- Effective max depth of a node: node-local override, else the generator
default. -/
def effMaxDepth (env : Env) (sp : Spec) : Nat := sp.max_depth?.getD env.max_depth

/-- Python slice `l[:j]` for a possibly negative `j`. -/
def pySlice (l : List Nat) (j : Int) : List Nat :=
  if j < 0 then l.take (l.length - j.natAbs) else l.take j.toNat

/-- Push a composite's children, honouring the global size budget:
`if overall_size + len(sons) >= max_size: push sons[:max_size - overall_size]`.
The Python stack grows at the list tail, our stack at the head, so the
extension is reversed. -/
def pushSons (env : Env) (c : Conf) (sons : List Nat) : Conf :=
  match env.max_size with
  | some N =>
    if N ≤ c.size + sons.length then
      {c with stack := (pySlice sons ((N : Int) - (c.size : Int))).reverse ++ c.stack,
              size := N}
    else
      {c with stack := sons.reverse ++ c.stack, size := c.size + sons.length}
  | none => {c with stack := sons.reverse ++ c.stack, size := c.size + sons.length}

/-- One iteration of the `while stack:` loop of
`Structure_Generator.generate` (one `load_ref` substitution of the inner
`while` loop counts as one step, the node being re-pushed unchanged).
When the stack is empty, `main_value.value` becomes the result.
Configurations with a result are final. -/
def step (env : Env) (c : Conf) : Conf :=
  match c.result with
  | some _ => c
  | none =>
    match c.stack with
    | [] => {c with result := some (.ok (getJVal (c.nodes 0).value))}
    | i :: rest =>
      let n := c.nodes i
      let c1 := {c with stack := rest, trace := i :: c.trace}
      match n.spec with
      | none => {c1 with result := some (.error .attributeError)}
      | some sp =>
        match sp.load_ref with
        | some name =>
          setNode {c1 with stack := i :: rest} i
            {n with spec := some ((env.globals name).getD emptySpec)}
        | none =>
          if effMaxDepth env sp ≤ n.depth then
            setNode c1 i {n with state := .TRUNCATED, value := .j .null}
          else
            match dispatch env c1 i n sp with
            | .error e => {c1 with result := some (.error e)}
            | .ok c2 =>
              match (c2.nodes i).state with
              | .DONE => c2
              | .TRUNCATED => c2
              | .DELAYED => {c2 with stack := i :: c2.stack}
              | .TO_BUILD => pushSons env {c2 with stack := i :: c2.stack} (c2.nodes i).sons

/-- Iterated engine steps (`runN env m c` runs `m` iterations). -/
def runN (env : Env) : Nat → Conf → Conf
  | 0, c => c
  | m + 1, c => runN env m (step env c)

/-- A pydantic-default arena slot (what `Value()` would hold). -/
def defaultNode : Node :=
  { spec := some emptySpec, state := .DELAYED, value := .j .null, sons := [],
    depth := 0, scope := none }

/-- `main_value`: the root pending value of a `generate` call. -/
def rootNode (s : Spec) : Node :=
  { spec := some s, state := .DELAYED, value := .j .null, sons := [],
    depth := 0, scope := none }

/-- The configuration at the top of `generate`: a one-element stack holding
the root, `overall_size = 1`. -/
def initConf (s : Spec) : Conf :=
  { nodes := fun j => if j = 0 then rootNode s else defaultNode,
    next := 1, stack := [0], scopes := fun _ => [], nscopes := 0,
    size := 1, k := 0, result := none, trace := [] }

/-- The empty process-start state of the class attribute
`Structure_Generator.GLOBALS`. -/
def initGlobals : Globals := fun _ => none

/-- `Structure_Generator.__init__`: constructing a generator runs
`parse_specif` on its spec, mutating the class-level reference table; the
updated table is the constructor's only effect we model. -/
def newGenerator (classGlobals : Globals) (specif : Option Spec) : Globals :=
  parse_specif classGlobals specif

/-- The result (if any) of `generate` after `fuel` loop iterations, for a
generator whose visible reference table is `env.globals`. -/
def generateResult (env : Env) (s : Spec) (fuel : Nat) : Option (Except PyErr JVal) :=
  (runN env fuel (initConf s)).result

/-! ### Properties of the retry wrapper -/

/-- Acceptance test of one candidate inside `word_from_regex`. -/
def wfrAccept (search : String → Bool) (min_length : Nat) (r : String) : Prop :=
  min_length ≤ r.length ∧ search r = true

instance (search : String → Bool) (m : Nat) (r : String) :
    Decidable (wfrAccept search m r) := by
  unfold wfrAccept
  infer_instance

theorem wfr_go_ok_spec (cand : Nat → Except Unit String) (search : String → Bool)
    (min_length : Nat) (f : Nat → String) :
    ∀ (m i : Nat) (last : String),
      (∀ j < m + 1, cand (i + j) = .ok (f (i + j))) →
      (∃ j < m + 1, wfrAccept search min_length (f (i + j)) ∧
          (∀ l < j, ¬ wfrAccept search min_length (f (i + l))) ∧
          word_from_regex_go cand search min_length (m + 1) i last = f (i + j)) ∨
      ((∀ j < m + 1, ¬ wfrAccept search min_length (f (i + j))) ∧
          word_from_regex_go cand search min_length (m + 1) i last = f (i + m)) := by
  intro m
  induction m with
  | zero =>
    intro i last hc
    have h0 := hc 0 (by omega)
    simp only [Nat.add_zero] at h0
    by_cases hacc : wfrAccept search min_length (f i)
    · left
      refine ⟨0, by omega, ?_, ?_, ?_⟩
      · simpa using hacc
      · omega
      · simp only [word_from_regex_go, h0]
        rw [if_pos]
        · simp
        · simpa [wfrAccept] using hacc
    · right
      constructor
      · intro j hj
        interval_cases j
        simpa using hacc
      · simp only [word_from_regex_go, h0]
        rw [if_neg]
        · simp [word_from_regex_go]
        · simpa [wfrAccept] using hacc
  | succ m ih =>
    intro i last hc
    have h0 := hc 0 (by omega)
    simp only [Nat.add_zero] at h0
    by_cases hacc : wfrAccept search min_length (f i)
    · left
      refine ⟨0, by omega, by simpa using hacc, by omega, ?_⟩
      simp only [word_from_regex_go, h0]
      rw [if_pos]
      · simp
      · simpa [wfrAccept] using hacc
    · have step1 : word_from_regex_go cand search min_length (m + 1 + 1) i last =
          word_from_regex_go cand search min_length (m + 1) (i + 1) (f i) := by
        simp only [word_from_regex_go, h0]
        rw [if_neg]
        simpa [wfrAccept] using hacc
      have hc1 : ∀ j < m + 1, cand (i + 1 + j) = .ok (f (i + 1 + j)) := by
        intro j hj
        have := hc (j + 1) (by omega)
        simpa [Nat.add_assoc, Nat.add_comm 1 j] using this
      rcases ih (i + 1) (f i) hc1 with ⟨j, hj, ha, hfirst, heq⟩ | ⟨hall, heq⟩
      · left
        refine ⟨j + 1, by omega, ?_, ?_, ?_⟩
        · have : i + 1 + j = i + (j + 1) := by omega
          rwa [this] at ha
        · intro l hl
          match l, hl with
          | 0, _ => simpa using hacc
          | l + 1, hl =>
            have := hfirst l (by omega)
            have e : i + 1 + l = i + (l + 1) := by omega
            rwa [e] at this
        · rw [step1, heq]
          congr 1
          omega
      · right
        constructor
        · intro j hj
          match j, hj with
          | 0, _ => simpa using hacc
          | j + 1, hj =>
            have := hall j (by omega)
            have e : i + 1 + j = i + (j + 1) := by omega
            rwa [e] at this
        · rw [step1, heq]
          congr 1
          omega

theorem wfr_go_err_spec (cand : Nat → Except Unit String) (search : String → Bool)
    (min_length : Nat) :
    ∀ (fuel i : Nat) (last : String) (j : Nat), j < fuel →
      cand (i + j) = .error () →
      (∀ l < j, ∃ r, cand (i + l) = .ok r ∧ ¬ wfrAccept search min_length r) →
      word_from_regex_go cand search min_length fuel i last = "" := by
  intro fuel
  induction fuel with
  | zero => omega
  | succ fuel ih =>
    intro i last j hj herr hpre
    match j, hj with
    | 0, _ =>
      simp only [Nat.add_zero] at herr
      simp [word_from_regex_go, herr]
    | j + 1, hj =>
      obtain ⟨r, hr, hnacc⟩ := hpre 0 (by omega)
      simp only [Nat.add_zero] at hr
      simp only [word_from_regex_go, hr]
      rw [if_neg (by simpa [wfrAccept] using hnacc)]
      refine ih (i + 1) r j (by omega) ?_ ?_
      · have e : i + 1 + j = i + (j + 1) := by omega
        rwa [e]
      · intro l hl
        obtain ⟨r2, hr2, hn2⟩ := hpre (l + 1) (by omega)
        refine ⟨r2, ?_, hn2⟩
        have e : i + 1 + l = i + (l + 1) := by omega
        rwa [e]

/-- A string/regex leaf spec with the given pattern and min_length. -/
def regexSpec (rg : String) (ml : Int) : Spec :=
  .mk (some "string") (some "regex") none none none [] none [] none none none none
    (.pdict [("regex", .str rg), ("min_length", .int ml)])

/-- The all-zero oracle whose regex interpreter always raises. -/
def oracleFail : Oracle :=
  { nat := fun _ => 0, rat := fun _ => 0, synth := fun _ _ _ => .error (),
    search := fun _ _ => true, quote_plus := fun s => s, b64encode := fun s => s }

/-- C7: `word_from_regex(pattern, min_length)` retries synthesis up to 200
times, accepting and returning a candidate only if its length is at least
`min_length` and it matches the pattern on re-check; after exhausting all
200 retries it returns the last candidate even if that candidate does not
match. -/
theorem C7_word_from_regex_retry (cand : Nat → Except Unit String)
    (search : String → Bool) (min_length : Nat) (f : Nat → String)
    (hc : ∀ i < 200, cand i = .ok (f i)) :
    (∃ i < 200, wfrAccept search min_length (f i) ∧
        (∀ l < i, ¬ wfrAccept search min_length (f l)) ∧
        word_from_regex cand search min_length = f i) ∨
    ((∀ i < 200, ¬ wfrAccept search min_length (f i)) ∧
        word_from_regex cand search min_length = f 199) := by
  have h := wfr_go_ok_spec cand search min_length f 199 0 ""
    (by intro j hj; simpa using hc j (by omega))
  simpa [word_from_regex] using h

theorem C7_word_from_regex_retry_witness :
    word_from_regex (fun _ => .ok "a") (fun _ => true) 0 = "a" := by
  have h := C7_word_from_regex_retry (fun _ => .ok "a") (fun _ => true) 0 (fun _ => "a")
    (by intro i _; rfl)
  rcases h with ⟨i, _, _, _, he⟩ | ⟨_, he⟩ <;> exact he

/-! ### Step lemmas: one engine iteration under known conditions -/

theorem step_final (env : Env) (c : Conf) (r : Except PyErr JVal)
    (h : c.result = some r) : step env c = c := by
  simp [step, h]

theorem step_empty (env : Env) (c : Conf)
    (h1 : c.result = none) (h2 : c.stack = []) :
    step env c = {c with result := some (.ok (getJVal (c.nodes 0).value))} := by
  simp [step, h1, h2]

theorem step_nospec (env : Env) (c : Conf) (i : Nat) (rest : List Nat)
    (h1 : c.result = none) (h2 : c.stack = i :: rest)
    (h3 : (c.nodes i).spec = none) :
    step env c =
      {c with stack := rest, trace := i :: c.trace, result := some (.error .attributeError)} := by
  simp [step, h1, h2, h3]

theorem step_loadref (env : Env) (c : Conf) (i : Nat) (rest : List Nat)
    (sp : Spec) (name : String)
    (h1 : c.result = none) (h2 : c.stack = i :: rest)
    (h3 : (c.nodes i).spec = some sp) (h4 : sp.load_ref = some name) :
    step env c = setNode {c with stack := i :: rest, trace := i :: c.trace} i
      {(c.nodes i) with spec := some ((env.globals name).getD emptySpec)} := by
  simp [step, h1, h2, h3, h4]

theorem step_truncate (env : Env) (c : Conf) (i : Nat) (rest : List Nat) (sp : Spec)
    (h1 : c.result = none) (h2 : c.stack = i :: rest)
    (h3 : (c.nodes i).spec = some sp) (h4 : sp.load_ref = none)
    (h5 : effMaxDepth env sp ≤ (c.nodes i).depth) :
    step env c = setNode {c with stack := rest, trace := i :: c.trace} i
      {(c.nodes i) with state := .TRUNCATED, value := .j .null} := by
  simp [step, h1, h2, h3, h4, h5]

theorem step_handler_err (env : Env) (c : Conf) (i : Nat) (rest : List Nat)
    (sp : Spec) (e : PyErr)
    (h1 : c.result = none) (h2 : c.stack = i :: rest)
    (h3 : (c.nodes i).spec = some sp) (h4 : sp.load_ref = none)
    (h5 : ¬ effMaxDepth env sp ≤ (c.nodes i).depth)
    (h6 : dispatch env {c with stack := rest, result := none, trace := i :: c.trace} i (c.nodes i) sp
      = .error e) :
    step env c =
      {c with stack := rest, trace := i :: c.trace, result := some (.error e)} := by
  simp [step, h1, h2, h3, h4, h5, h6]

theorem step_handler_done (env : Env) (c : Conf) (i : Nat) (rest : List Nat)
    (sp : Spec) (c2 : Conf)
    (h1 : c.result = none) (h2 : c.stack = i :: rest)
    (h3 : (c.nodes i).spec = some sp) (h4 : sp.load_ref = none)
    (h5 : ¬ effMaxDepth env sp ≤ (c.nodes i).depth)
    (h6 : dispatch env {c with stack := rest, result := none, trace := i :: c.trace} i (c.nodes i) sp
      = .ok c2)
    (h7 : (c2.nodes i).state = .DONE) :
    step env c = c2 := by
  simp [step, h1, h2, h3, h4, h5, h6, h7]

theorem step_handler_delayed (env : Env) (c : Conf) (i : Nat) (rest : List Nat)
    (sp : Spec) (c2 : Conf)
    (h1 : c.result = none) (h2 : c.stack = i :: rest)
    (h3 : (c.nodes i).spec = some sp) (h4 : sp.load_ref = none)
    (h5 : ¬ effMaxDepth env sp ≤ (c.nodes i).depth)
    (h6 : dispatch env {c with stack := rest, result := none, trace := i :: c.trace} i (c.nodes i) sp
      = .ok c2)
    (h7 : (c2.nodes i).state = .DELAYED) :
    step env c = {c2 with stack := i :: c2.stack} := by
  simp [step, h1, h2, h3, h4, h5, h6, h7]

theorem step_handler_tobuild (env : Env) (c : Conf) (i : Nat) (rest : List Nat)
    (sp : Spec) (c2 : Conf)
    (h1 : c.result = none) (h2 : c.stack = i :: rest)
    (h3 : (c.nodes i).spec = some sp) (h4 : sp.load_ref = none)
    (h5 : ¬ effMaxDepth env sp ≤ (c.nodes i).depth)
    (h6 : dispatch env {c with stack := rest, result := none, trace := i :: c.trace} i (c.nodes i) sp
      = .ok c2)
    (h7 : (c2.nodes i).state = .TO_BUILD) :
    step env c = pushSons env {c2 with stack := i :: c2.stack} ((c2.nodes i).sons) := by
  simp [step, h1, h2, h3, h4, h5, h6, h7]

theorem runN_succ_front (env : Env) (m : Nat) (c : Conf) :
    runN env (m + 1) c = runN env m (step env c) := rfl

theorem runN_add (env : Env) (a b : Nat) (c : Conf) :
    runN env (a + b) c = runN env b (runN env a c) := by
  induction a generalizing c with
  | zero => simp [runN]
  | succ a ih =>
    have : a + 1 + b = (a + b) + 1 := by omega
    rw [this]
    show runN env (a + b) (step env c) = _
    rw [ih (step env c)]
    rfl

theorem runN_final (env : Env) (m : Nat) (c : Conf) (r : Except PyErr JVal)
    (h : c.result = some r) : runN env m c = c := by
  induction m with
  | zero => rfl
  | succ m ih =>
    show runN env m (step env c) = c
    rw [step_final env c r h]
    exact ih

/-- An oracle whose regex interpreter produces the candidate stream `cand`
and whose `re.search` behaves as `search`, for any pattern. -/
def mkOracle (cand : Nat → Except Unit String) (search : String → Bool) : Oracle :=
  { nat := fun _ => 0, rat := fun _ => 0, synth := fun _ i _ => cand i,
    search := fun _ r => search r, quote_plus := fun s => s, b64encode := fun s => s }

/-- C10: if regex parsing or generative interpretation raises before any
candidate is accepted, `word_from_regex` catches it and returns the empty
string (never raising, never returning None); consequently a string/regex
leaf whose synthesis fails internally resolves to the empty string, not
null. -/
theorem C10_regex_failure_empty_string (cand : Nat → Except Unit String)
    (search : String → Bool) (min_length j : Nat)
    (hj : j < 200) (herr : cand j = .error ())
    (hpre : ∀ l < j, ∃ r, cand l = .ok r ∧ ¬ wfrAccept search min_length r) :
    word_from_regex cand search min_length = "" ∧
    ∀ (g : Globals) (md : Nat) (rg : String), 1 ≤ md →
      generateResult
        { globals := g, max_depth := md, max_size := none, o := mkOracle cand search }
        (regexSpec rg (Int.ofNat min_length)) 2 = some (.ok (.str "")) := by
  have hwfr : word_from_regex cand search min_length = "" :=
    wfr_go_err_spec cand search min_length 200 0 "" j hj (by simpa using herr)
      (by simpa using hpre)
  refine ⟨hwfr, ?_⟩
  intro g md rg hmd
  have henv : ∀ x : Env, x = x := fun _ => rfl
  show (step {globals := g, max_depth := md, max_size := none, o := mkOracle cand search}
    (step {globals := g, max_depth := md, max_size := none, o := mkOracle cand search}
      (initConf (regexSpec rg (Int.ofNat min_length))))).result = some (.ok (.str ""))
  have e1 : step {globals := g, max_depth := md, max_size := none, o := mkOracle cand search}
      (initConf (regexSpec rg (Int.ofNat min_length))) =
      setNode
        {(initConf (regexSpec rg (Int.ofNat min_length))) with
          stack := ([] : List Nat), result := none, trace := [0], k := 1} 0
        {((initConf (regexSpec rg (Int.ofNat min_length))).nodes 0) with
          state := .DONE, value := .j (.str (word_from_regex cand search min_length))} := by
    refine step_handler_done _ _ 0 [] (regexSpec rg (Int.ofNat min_length)) _ rfl rfl rfl rfl
      ?_ rfl rfl
    show ¬ md ≤ 0
    omega
  rw [e1]
  have e2 : step {globals := g, max_depth := md, max_size := none, o := mkOracle cand search}
      (setNode
        {(initConf (regexSpec rg (Int.ofNat min_length))) with
          stack := ([] : List Nat), result := none, trace := [0], k := 1} 0
        {((initConf (regexSpec rg (Int.ofNat min_length))).nodes 0) with
          state := .DONE, value := .j (.str (word_from_regex cand search min_length))}) =
      {(setNode
        {(initConf (regexSpec rg (Int.ofNat min_length))) with
          stack := ([] : List Nat), result := none, trace := [0], k := 1} 0
        {((initConf (regexSpec rg (Int.ofNat min_length))).nodes 0) with
          state := .DONE, value := .j (.str (word_from_regex cand search min_length))}) with
        result := some (.ok (.str (word_from_regex cand search min_length)))} := by
    exact step_empty _ _ rfl rfl
  rw [e2, hwfr]

theorem C10_regex_failure_empty_string_witness :
    word_from_regex (fun _ => .error ()) (fun _ => true) 0 = "" ∧
    generateResult
      { globals := initGlobals, max_depth := 20, max_size := none,
        o := mkOracle (fun _ => .error ()) (fun _ => true) }
      (regexSpec "[" (Int.ofNat 0)) 2 = some (.ok (.str "")) := by
  obtain ⟨h1, h2⟩ := C10_regex_failure_empty_string (fun _ => .error ()) (fun _ => true) 0 0
    (by omega) rfl (by intro l hl; omega)
  exact ⟨h1, h2 initGlobals 20 "[" (by omega)⟩

/-- The all-zero oracle (every draw 0, regex synthesis returns `"x"`). -/
def oracle0 : Oracle :=
  { nat := fun _ => 0, rat := fun _ => 0, synth := fun _ _ _ => .ok "x",
    search := fun _ _ => true, quote_plus := fun s => s, b64encode := fun s => s }

/-- An integer-uniform leaf whose declared bounds are inverted
(`min_val = 5 > 1 = max_val`), so `random.randint` raises `ValueError`. -/
def intBadSpec : Spec :=
  .mk (some "integer") none none none none [] none [] none none none none
    (.pdict [("min_val", .int 5), ("max_val", .int 1)])

/-- A leaf spec whose type names no registered handler. -/
def leafSpec (t : String) : Spec :=
  .mk (some t) none none none none [] none [] none none none none .pnone

/-- A bare `load_ref` node. -/
def loadSpec (name : String) : Spec :=
  .mk none none (some name) none none [] none [] none none none none .pnone

/-- C1 counterexample: `generate` does raise past its boundary.  On the spec
`type: integer, parameters: min_val 5, max_val 1` the handler's
`random.randint(5, 1)` raises `ValueError`, which no engine frame catches:
the first loop iteration already surfaces the exception to the caller
instead of a value tree. -/
theorem C1_generate_raises_counterexample :
    generateResult { globals := initGlobals, max_depth := 20, max_size := none, o := oracle0 }
      intBadSpec 1 = some (.error .valueError) := rfl

/-- C1 amended: the engine-level error paths are absorbed as null plus a
diagnostic — an unregistered dispatch key falls to the null handler, and an
unregistered reference substitutes the empty spec and resolves to null —
but an exception raised inside a type handler (such as the inverted-bounds
`ValueError` of `C1_generate_raises_counterexample`) propagates out of
`generate` to the caller. -/
theorem C1_engine_level_failures_absorbed :
    (∀ (g : Globals) (md : Nat) (ms : Option Nat) (o : Oracle), 1 ≤ md →
      generateResult { globals := g, max_depth := md, max_size := ms, o := o }
        (leafSpec "mystery") 2 = some (.ok .null)) ∧
    (∀ (g : Globals) (md : Nat) (ms : Option Nat) (o : Oracle) (name : String),
      g name = none → 1 ≤ md →
      generateResult { globals := g, max_depth := md, max_size := ms, o := o }
        (loadSpec name) 3 = some (.ok .null)) := by
  constructor
  · intro g md ms o hmd
    show (step { globals := g, max_depth := md, max_size := ms, o := o }
      (step { globals := g, max_depth := md, max_size := ms, o := o }
        (initConf (leafSpec "mystery")))).result = some (.ok .null)
    have e1 : step { globals := g, max_depth := md, max_size := ms, o := o }
        (initConf (leafSpec "mystery")) =
        setNode
          {(initConf (leafSpec "mystery")) with
            stack := ([] : List Nat), result := none, trace := [0]} 0
          {((initConf (leafSpec "mystery")).nodes 0) with state := .DONE, value := .j .null} := by
      refine step_handler_done _ _ 0 [] (leafSpec "mystery") _ rfl rfl rfl rfl ?_ rfl rfl
      show ¬ md ≤ 0
      omega
    rw [e1]
    have e2 := step_empty { globals := g, max_depth := md, max_size := ms, o := o }
      (setNode
        {(initConf (leafSpec "mystery")) with
          stack := ([] : List Nat), result := none, trace := [0]} 0
        {((initConf (leafSpec "mystery")).nodes 0) with state := .DONE, value := .j .null})
      rfl rfl
    rw [e2]
    rfl
  · intro g md ms o name hg hmd
    set e : Env := { globals := g, max_depth := md, max_size := ms, o := o } with he
    have hg2 : e.globals name = none := hg
    show (step e (step e (step e (initConf (loadSpec name))))).result = some (.ok .null)
    have e1 : step e (initConf (loadSpec name)) =
        setNode {(initConf (loadSpec name)) with stack := [0], trace := [0]} 0
          {((initConf (loadSpec name)).nodes 0) with spec := some emptySpec} := by
      rw [step_loadref e (initConf (loadSpec name)) 0 [] (loadSpec name) name rfl rfl rfl rfl,
        hg2]
      rfl
    rw [e1]
    have e2 : step e
        (setNode {(initConf (loadSpec name)) with stack := [0], trace := [0]} 0
          {((initConf (loadSpec name)).nodes 0) with spec := some emptySpec}) =
        setNode
          {(setNode {(initConf (loadSpec name)) with stack := [0], trace := [0]} 0
            {((initConf (loadSpec name)).nodes 0) with spec := some emptySpec}) with
              stack := ([] : List Nat), result := none, trace := [0, 0]} 0
          {({((initConf (loadSpec name)).nodes 0) with spec := some emptySpec}) with
              state := .DONE, value := .j .null} := by
      refine step_handler_done e _ 0 [] emptySpec _ rfl rfl rfl rfl ?_ rfl rfl
      show ¬ md ≤ 0
      omega
    rw [e2]
    have e3 := step_empty e
      (setNode
        {(setNode {(initConf (loadSpec name)) with stack := [0], trace := [0]} 0
          {((initConf (loadSpec name)).nodes 0) with spec := some emptySpec}) with
            stack := ([] : List Nat), result := none, trace := [0, 0]} 0
        {({((initConf (loadSpec name)).nodes 0) with spec := some emptySpec}) with
            state := .DONE, value := .j .null})
      rfl rfl
    rw [e3]
    rfl

theorem C1_engine_level_failures_absorbed_witness :
    generateResult { globals := initGlobals, max_depth := 20, max_size := none, o := oracle0 }
      (leafSpec "mystery") 2 = some (.ok .null) ∧
    generateResult { globals := initGlobals, max_depth := 20, max_size := none, o := oracle0 }
      (loadSpec "nope") 3 = some (.ok .null) := by
  obtain ⟨h1, h2⟩ := C1_engine_level_failures_absorbed
  exact ⟨h1 initGlobals 20 none oracle0 (by omega),
    h2 initGlobals 20 none oracle0 "nope" rfl (by omega)⟩

/-- A `fixed` leaf producing the value `v`. -/
def fixedValSpec (v : JVal) : Spec :=
  .mk (some "fixed") none none none none [] none [] (some v) none none none .pnone

/-- A `fixed` leaf producing `v`, with an optional `store_ref` name. -/
def fixedStSpec (st : Option String) (v : JVal) : Spec :=
  .mk (some "fixed") none none st none [] none [] (some v) none none none .pnone

/-- A `fixed: 42` leaf registering itself under the reference name `a`. -/
def storeASpec : Spec := fixedStSpec (some "a") (.int 42)

theorem storeA_registers :
    newGenerator (newGenerator initGlobals (some storeASpec)) (some (loadSpec "a")) =
      Function.update initGlobals "a" (some storeASpec) := by
  show parse_specif (parse_specif initGlobals (some storeASpec)) (some (loadSpec "a")) = _
  rw [parse_specif.eq_def]
  simp only [loadSpec, storeStep, Spec.store_ref]
  rw [parse_specif.eq_def]
  simp [storeASpec, fixedStSpec, storeStep, Spec.store_ref]

/-- C6 counterexample: the reference table is not instance-owned.  After
generator 1 is constructed on a spec registering `a`, constructing
generator 2 on a spec that stores nothing still finds `a` in the table (the
class attribute `GLOBALS` is one shared dict), and generator 2's
`load_ref: a` resolves to generator 1's registered spec, yielding 42 where
per-instance scoping would give the unknown-reference null. -/
theorem C6_registry_shared_counterexample :
    newGenerator (newGenerator initGlobals (some storeASpec)) (some (loadSpec "a")) "a"
      = some storeASpec ∧
    generateResult
      { globals := newGenerator (newGenerator initGlobals (some storeASpec)) (some (loadSpec "a")),
        max_depth := 20, max_size := none, o := oracle0 }
      (loadSpec "a") 4 = some (.ok (.int 42)) := by
  constructor
  · rw [storeA_registers]
    simp
  · rw [storeA_registers]
    rfl

/-- C6 amended: `GLOBALS` is one process-wide class-level table shared by
all generator instances; each construction adds its spec's `store_ref`
entries to it (a spec storing nothing leaves it untouched), and an entry
registered by one generator is visible to `load_ref` resolution in any
other generator that uses the table afterwards. -/
theorem C6_registry_class_level_shared :
    (∀ (g : Globals) (name : String), newGenerator g (some (loadSpec name)) = g) ∧
    (∀ (g : Globals) (name st : Option String) (v : JVal) (md : Nat) (ms : Option Nat)
      (o : Oracle) (nm : String),
      name = some nm → 1 ≤ md → g nm = some (fixedStSpec st v) →
      generateResult { globals := g, max_depth := md, max_size := ms, o := o }
        (loadSpec nm) 3 = some (.ok v)) := by
  constructor
  · intro g name
    show parse_specif g (some (loadSpec name)) = g
    rw [parse_specif.eq_def]
    simp [loadSpec, storeStep, Spec.store_ref]
  · intro g name st v md ms o nm hname hmd hreg
    set e : Env := { globals := g, max_depth := md, max_size := ms, o := o } with he
    have hg2 : e.globals nm = some (fixedStSpec st v) := hreg
    show (step e (step e (step e (initConf (loadSpec nm))))).result = some (.ok v)
    have e1 : step e (initConf (loadSpec nm)) =
        setNode {(initConf (loadSpec nm)) with stack := [0], trace := [0]} 0
          {((initConf (loadSpec nm)).nodes 0) with spec := some (fixedStSpec st v)} := by
      rw [step_loadref e (initConf (loadSpec nm)) 0 [] (loadSpec nm) nm rfl rfl rfl rfl,
        hg2]
      rfl
    rw [e1]
    have e2 : step e
        (setNode {(initConf (loadSpec nm)) with stack := [0], trace := [0]} 0
          {((initConf (loadSpec nm)).nodes 0) with spec := some (fixedStSpec st v)}) =
        setNode
          {(setNode {(initConf (loadSpec nm)) with stack := [0], trace := [0]} 0
            {((initConf (loadSpec nm)).nodes 0) with spec := some (fixedStSpec st v)}) with
              stack := ([] : List Nat), result := none, trace := [0, 0]} 0
          {({((initConf (loadSpec nm)).nodes 0) with spec := some (fixedStSpec st v)}) with
              state := .DONE, value := .j v} := by
      refine step_handler_done e _ 0 [] (fixedStSpec st v) _ rfl rfl rfl rfl ?_ rfl rfl
      show ¬ md ≤ 0
      omega
    rw [e2]
    have e3 := step_empty e
      (setNode
        {(setNode {(initConf (loadSpec nm)) with stack := [0], trace := [0]} 0
          {((initConf (loadSpec nm)).nodes 0) with spec := some (fixedStSpec st v)}) with
            stack := ([] : List Nat), result := none, trace := [0, 0]} 0
        {({((initConf (loadSpec nm)).nodes 0) with spec := some (fixedStSpec st v)}) with
            state := .DONE, value := .j v})
      rfl rfl
    rw [e3]
    rfl

theorem C6_registry_class_level_shared_witness :
    newGenerator initGlobals (some (loadSpec "x")) = initGlobals ∧
    generateResult
      { globals := Function.update initGlobals "a" (some storeASpec), max_depth := 20,
        max_size := none, o := oracle0 }
      (loadSpec "a") 3 = some (.ok (.int 42)) := by
  obtain ⟨h1, h2⟩ := C6_registry_class_level_shared
  exact ⟨h1 initGlobals "x",
    h2 (Function.update initGlobals "a" (some storeASpec)) (some "a") (some "a") (.int 42)
      20 none oracle0 "a" rfl (by omega) (by simp [storeASpec])⟩

/-- The record whose key list exercises the string `chance` forms:
`a` always present, then `b` with `chance: "a"`, then `c` with
`chance: "!a"`. -/
def chanceRecSpec : Spec :=
  .mk (some "record") none none none none
    [ (some (.inl (.str "a")), some (fixedValSpec (.int 1)), none, some .cnull),
      (some (.inl (.str "b")), some (fixedValSpec (.int 2)), none, some (.cstr "a")),
      (some (.inl (.str "c")), some (fixedValSpec (.int 3)), none, some (.cstr "!a")) ]
    none [] none none none none .pnone

set_option maxHeartbeats 4000000 in
/-- C5 failing input: in `generate_record` the set `keys_there` is created
empty and consulted for every string `chance`, but no key name is ever
added to it.  With keys `a` (always), `b` (`chance: "a"`), `c`
(`chance: "!a"`): the claim requires `b` present (`a` was already emitted)
and `c` absent; the code instead drops `b` and keeps `c`, because the
seen-key set is permanently empty. -/
theorem C5_chance_tracking_failing_input :
    generateResult { globals := initGlobals, max_depth := 20, max_size := none, o := oracle0 }
      chanceRecSpec 5 = some (.ok (.obj [(.str "a", .int 1), (.str "c", .int 3)])) := rfl

/-- A choice node registered as `c` whose single (100%) option refers back
to itself through `load_ref: c`. -/
def choiceCycleSpec : Spec :=
  .mk (some "choice") none none (some "c") none [] none
    [(some 100, some (loadSpec "c"))] none none none none .pnone

theorem choiceCycle_registers :
    newGenerator initGlobals (some choiceCycleSpec) =
      Function.update initGlobals "c" (some choiceCycleSpec) := by
  show parse_specif initGlobals (some choiceCycleSpec) = _
  rw [parse_specif.eq_def]
  simp only [choiceCycleSpec, storeStep, Spec.store_ref]
  rw [parseOpts.eq_def]
  norm_num
  rw [parse_specif.eq_def]
  simp only [loadSpec, storeStep, Spec.store_ref]
  rw [parseOpts.eq_def]
  simp

/-- The environment of the generator built on `choiceCycleSpec`, with the
all-zero oracle (the roll 0 always falls inside the 100% option). -/
def envC : Env :=
  { globals := Function.update initGlobals "c" (some choiceCycleSpec),
    max_depth := 20, max_size := none, o := oracle0 }

theorem generate_choice_single (env : Env) (c : Conf) (i : Nat) (n : Node)
    (ch : Rat) (vsp : Option Spec) (sp : Spec)
    (hopts : sp.options = [(some ch, vsp)]) (hlt : env.o.rat c.k * 100 < ch) :
    generate_choice env c i n sp =
      .ok (setNode {c with k := c.k + 1} i {n with spec := vsp}) := by
  simp only [generate_choice, hopts, choiceWalk, Option.getD]
  rw [if_pos hlt]

/-- Loop invariant of the diverging run: the stack forever holds the root,
still DELAYED at depth 0, its spec alternating between the choice node and
the bare `load_ref` it rewrites itself to. -/
def choiceCycleInv (c : Conf) : Prop :=
  c.result = none ∧ c.stack = [0] ∧ (c.nodes 0).depth = 0 ∧
    (c.nodes 0).state = .DELAYED ∧
    ((c.nodes 0).spec = some choiceCycleSpec ∨ (c.nodes 0).spec = some (loadSpec "c"))

theorem choiceCycleInv_step (c : Conf) (h : choiceCycleInv c) :
    choiceCycleInv (step envC c) := by
  obtain ⟨h1, h2, hd, hst, hsp | hsp⟩ := h
  · have hdisp : dispatch envC {c with stack := ([] : List Nat), result := none, trace := 0 :: c.trace} 0 (c.nodes 0) choiceCycleSpec =
        .ok (setNode {c with stack := ([] : List Nat), result := none, trace := 0 :: c.trace, k := c.k + 1} 0 {(c.nodes 0) with spec := some (loadSpec "c")}) := by
      have hred : dispatch envC {c with stack := ([] : List Nat), result := none, trace := 0 :: c.trace} 0 (c.nodes 0) choiceCycleSpec =
          generate_choice envC {c with stack := ([] : List Nat), result := none, trace := 0 :: c.trace} 0 (c.nodes 0) choiceCycleSpec := rfl
      rw [hred, generate_choice_single envC _ 0 (c.nodes 0) 100 (some (loadSpec "c"))
        choiceCycleSpec rfl (by show (0 : Rat) * 100 < 100; norm_num)]
    have e1 : step envC c =
        {(setNode {c with stack := ([] : List Nat), result := none, trace := 0 :: c.trace, k := c.k + 1} 0 {(c.nodes 0) with spec := some (loadSpec "c")}) with stack := [0]} := by
      have := step_handler_delayed envC c 0 [] choiceCycleSpec
        (setNode {c with stack := ([] : List Nat), result := none, trace := 0 :: c.trace, k := c.k + 1} 0 {(c.nodes 0) with spec := some (loadSpec "c")})
        h1 h2 hsp rfl (by rw [hd]; decide) hdisp
        (by simp [setNode, Function.update_same]; exact hst)
      exact this
    rw [e1]
    refine ⟨rfl, rfl, ?_, ?_, .inr ?_⟩ <;>
      simp [setNode, Function.update_same, hd, hst]
  · have e1 : step envC c =
        setNode {c with stack := [0], trace := 0 :: c.trace} 0
          {(c.nodes 0) with spec := some choiceCycleSpec} := by
      have := step_loadref envC c 0 [] (loadSpec "c") "c" h1 h2 hsp rfl
      rw [this]
      rfl
    rw [e1]
    refine ⟨h1, rfl, ?_, ?_, .inl ?_⟩ <;>
      simp [setNode, Function.update_same, hd, hst]

theorem choiceCycle_run (n : Nat) :
    ∀ (c : Conf), choiceCycleInv c → (runN envC n c).result = none := by
  induction n with
  | zero => intro c h; exact h.1
  | succ n ih =>
    intro c h
    show (runN envC n (step envC c)).result = none
    exact ih _ (choiceCycleInv_step c h)

/-- C2 failing input: on the self-referential choice spec (a choice whose
only option loads the choice itself by reference), `generate` never
terminates: the choice handler rewrites the node's spec in place at an
unchanged depth, the engine re-pushes it, the reference substitutes the
choice again, and neither the depth budget (depth never grows) nor the
size budget (nothing is ever pushed beyond the root) intervenes.  After
any number of loop iterations no value tree has been produced. -/
theorem C2_choice_cycle_diverges (n : Nat) :
    generateResult
      { globals := newGenerator initGlobals (some choiceCycleSpec),
        max_depth := 20, max_size := none, o := oracle0 }
      choiceCycleSpec n = none := by
  show (runN _ n (initConf choiceCycleSpec)).result = none
  rw [choiceCycle_registers]
  exact choiceCycle_run n (initConf choiceCycleSpec) ⟨rfl, rfl, rfl, rfl, .inl rfl⟩

/-! ### Handlers preserve the engine bookkeeping fields

No handler touches the stack, the pop log, or the `overall_size` counter:
they only write nodes, scopes and the oracle cursor. -/

/-- The bookkeeping fields a handler invocation leaves untouched. -/
def keepsBk (c c2 : Conf) : Prop :=
  c2.stack = c.stack ∧ c2.trace = c.trace ∧ c2.size = c.size ∧ c2.result = c.result

theorem keepsBk_refl (c : Conf) : keepsBk c c := ⟨rfl, rfl, rfl, rfl⟩

theorem keepsBk_setNode (c : Conf) (i : Nat) (n : Node) : keepsBk c (setNode c i n) :=
  ⟨rfl, rfl, rfl, rfl⟩

theorem keepsBk_trans {a b c : Conf} (h1 : keepsBk a b) (h2 : keepsBk b c) : keepsBk a c := by
  obtain ⟨x1, x2, x3, x4⟩ := h1
  obtain ⟨y1, y2, y3, y4⟩ := h2
  exact ⟨y1.trans x1, y2.trans x2, y3.trans x3, y4.trans x4⟩

theorem simpleCallback_keepsBk (compute : Oracle → Nat → Params → Except PyErr (JVal × Nat))
    (env : Env) (c : Conf) (i : Nat) (n : Node) (sp : Spec) (c2 : Conf)
    (h : simpleCallback compute env c i n sp = .ok c2) : keepsBk c c2 := by
  rcases hc : compute env.o c.k sp.params with e | pr
  · simp [simpleCallback, hc, Bind.bind, Except.bind] at h
  · simp [simpleCallback, hc, Bind.bind, Except.bind] at h
    subst h
    exact ⟨rfl, rfl, rfl, rfl⟩

theorem choiceWalk_keepsBk (i : Nat) (n : Node) (total : Nat) :
    ∀ (opts : List COpt) (c : Conf) (r : Rat), keepsBk c (choiceWalk c i n total r opts) := by
  intro opts
  induction opts with
  | nil => intro c r; exact ⟨rfl, rfl, rfl, rfl⟩
  | cons o rest ih =>
    intro c r
    show keepsBk c (choiceWalk c i n total r (o :: rest))
    rw [choiceWalk]
    split
    · exact ⟨rfl, rfl, rfl, rfl⟩
    · exact ih c _

theorem recReps_keepsBk (o : Oracle) (parent : Node) (sid : Nat) (key : RKey) :
    ∀ (m : Nat) (c : Conf) (kt : List String) (pairs : List (Nat × Nat)) (tbd : List Nat)
      (out : Conf × List (Nat × Nat) × List Nat),
      recReps o parent sid key m c kt pairs tbd = .ok out → keepsBk c out.1 := by
  intro m
  induction m with
  | zero =>
    intro c kt pairs tbd out h
    simp only [recReps, Except.ok.injEq] at h
    subst h
    exact keepsBk_refl c
  | succ m ih =>
    intro c kt pairs tbd out h
    rw [recReps] at h
    dsimp only at h
    split at h
    · split at h
      · exact absurd h (by simp)
      · have hrec := ih _ _ _ _ _ h
        exact keepsBk_trans (show keepsBk c _ from ⟨rfl, rfl, rfl, rfl⟩) hrec
      · have hrec := ih _ _ _ _ _ h
        exact keepsBk_trans (show keepsBk c _ from ⟨rfl, rfl, rfl, rfl⟩) hrec
    · have hrec := ih _ _ _ _ _ h
      exact keepsBk_trans (show keepsBk c _ from ⟨rfl, rfl, rfl, rfl⟩) hrec

theorem recKeys_keepsBk (o : Oracle) (parent : Node) (sid : Nat) :
    ∀ (ks : List RKey) (c : Conf) (kt : List String) (pairs : List (Nat × Nat)) (tbd : List Nat)
      (out : Conf × List (Nat × Nat) × List Nat),
      recKeys o parent sid ks c kt pairs tbd = .ok out → keepsBk c out.1 := by
  intro ks
  induction ks with
  | nil =>
    intro c kt pairs tbd out h
    simp only [recKeys, Except.ok.injEq] at h
    subst h
    exact keepsBk_refl c
  | cons key rest ih =>
    intro c kt pairs tbd out h
    rw [recKeys] at h
    rcases hr : recReps o parent sid key ((key.repeat?.getD 1).toNat) c kt pairs tbd with e | mid
    · rw [hr] at h
      exact absurd h (by simp [Bind.bind, Except.bind])
    · rw [hr] at h
      simp only [Bind.bind, Except.bind] at h
      exact keepsBk_trans (recReps_keepsBk o parent sid key _ c kt pairs tbd mid hr)
        (ih _ _ _ _ _ h)

theorem allocKids_keepsBk (tmpl : Node) :
    ∀ (m : Nat) (c : Conf), keepsBk c (allocKids c tmpl m).2 := by
  intro m
  induction m with
  | zero => intro c; exact keepsBk_refl c
  | succ m ih =>
    intro c
    show keepsBk c (allocKids c tmpl (m + 1)).2
    rw [allocKids]
    exact keepsBk_trans (⟨rfl, rfl, rfl, rfl⟩ :
      keepsBk c (allocNode c tmpl).2) (ih (allocNode c tmpl).2)

theorem generate_record_keepsBk (env : Env) (c : Conf) (i : Nat) (n : Node) (sp : Spec)
    (c2 : Conf) (h : generate_record env c i n sp = .ok c2) : keepsBk c c2 := by
  unfold generate_record at h
  split at h
  · dsimp only at h
    rcases hr : recKeys env.o n c.nscopes sp.keys
        {c with scopes := Function.update c.scopes c.nscopes [], nscopes := c.nscopes + 1}
        [] [] [] with e | out
    · rw [hr] at h
      simp at h
    · obtain ⟨c3, pairs, tbd⟩ := out
      rw [hr] at h
      have hk := recKeys_keepsBk env.o n c.nscopes sp.keys _ [] [] [] (c3, pairs, tbd) hr
      simp only at h
      split at h
      · injection h with h
        subst h
        exact keepsBk_trans (keepsBk_trans (show keepsBk c _ from ⟨rfl, rfl, rfl, rfl⟩) hk)
          (keepsBk_setNode _ _ _)
      · injection h with h
        subst h
        exact keepsBk_trans (keepsBk_trans (show keepsBk c _ from ⟨rfl, rfl, rfl, rfl⟩) hk)
          (keepsBk_setNode _ _ _)
  · injection h with h
    subst h
    exact keepsBk_setNode _ _ _
  · injection h with h
    subst h
    exact keepsBk_refl c

theorem generate_array_keepsBk (env : Env) (c : Conf) (i : Nat) (n : Node) (sp : Spec)
    (c2 : Conf) (h : generate_array env c i n sp = .ok c2) : keepsBk c c2 := by
  unfold generate_array at h
  split at h
  · dsimp only at h
    rcases hr : randint env.o c.k (sp.min_length?.getD 0)
        (sp.max_length?.getD (sp.min_length?.getD 0 + 4)) with e | lk
    · rw [hr] at h
      simp at h
    · obtain ⟨len, k1⟩ := lk
      rw [hr] at h
      dsimp only at h
      injection h with h
      subst h
      have hmid : keepsBk c
          {c with scopes := Function.update c.scopes c.nscopes [], nscopes := c.nscopes + 1, k := k1} :=
        ⟨rfl, rfl, rfl, rfl⟩
      exact keepsBk_trans hmid
        (keepsBk_trans (allocKids_keepsBk _ len.toNat _) (keepsBk_setNode _ _ _))
  · injection h with h
    subst h
    exact keepsBk_setNode _ _ _
  · injection h with h
    subst h
    exact keepsBk_refl c

set_option maxHeartbeats 2000000 in
theorem dispatch_keepsBk (env : Env) (c : Conf) (i : Nat) (n : Node) (sp : Spec) (c2 : Conf)
    (h : dispatch env c i n sp = .ok c2) : keepsBk c c2 := by
  unfold dispatch at h
  split at h
  case _ => exact simpleCallback_keepsBk _ env c i n sp c2 h
  case _ => exact simpleCallback_keepsBk _ env c i n sp c2 h
  case _ => exact simpleCallback_keepsBk _ env c i n sp c2 h
  case _ => exact simpleCallback_keepsBk _ env c i n sp c2 h
  case _ =>
    injection h with h
    subst h
    exact keepsBk_setNode _ _ _
  case _ =>
    injection h with h
    subst h
    exact keepsBk_setNode _ _ _
  case _ =>
    injection h with h
    subst h
    exact choiceWalk_keepsBk i n _ _ _ _
  case _ => exact simpleCallback_keepsBk _ env c i n sp c2 h
  case _ =>
    unfold generate_string_enum at h
    rcases hsc : n.scope with _ | sid
    · rw [hsc] at h
      dsimp only at h
      rcases hm : pyMod (sp.pattern?.getD "%d") 0 with e | res
      · rw [hm] at h
        simp [Bind.bind, Except.bind] at h
      · rw [hm] at h
        simp only [Bind.bind, Except.bind] at h
        injection h with h
        subst h
        exact keepsBk_setNode _ _ _
    · rw [hsc] at h
      dsimp only at h
      rcases hm : pyMod (sp.pattern?.getD "%d") (countOf (c.scopes sid) (sp.pattern?.getD "%d"))
          with e | res
      · rw [hm] at h
        simp [Bind.bind, Except.bind] at h
      · rw [hm] at h
        simp only [Bind.bind, Except.bind] at h
        injection h with h
        subst h
        exact keepsBk_trans (show keepsBk c _ from ⟨rfl, rfl, rfl, rfl⟩) (keepsBk_setNode _ _ _)
  case _ => exact simpleCallback_keepsBk _ env c i n sp c2 h
  case _ => exact simpleCallback_keepsBk _ env c i n sp c2 h
  case _ => exact generate_record_keepsBk env c i n sp c2 h
  case _ => exact generate_array_keepsBk env c i n sp c2 h
  case _ =>
    injection h with h
    subst h
    exact keepsBk_setNode _ _ _

/-! ### The size budget bounds the number of evaluated nodes -/

theorem step_handler_trunc2 (env : Env) (c : Conf) (i : Nat) (rest : List Nat)
    (sp : Spec) (c2 : Conf)
    (h1 : c.result = none) (h2 : c.stack = i :: rest)
    (h3 : (c.nodes i).spec = some sp) (h4 : sp.load_ref = none)
    (h5 : ¬ effMaxDepth env sp ≤ (c.nodes i).depth)
    (h6 : dispatch env {c with stack := rest, result := none, trace := i :: c.trace} i (c.nodes i) sp
      = .ok c2)
    (h7 : (c2.nodes i).state = .TRUNCATED) :
    step env c = c2 := by
  simp [step, h1, h2, h3, h4, h5, h6, h7]

theorem popUnion (i : Nat) (tr st : List Nat) :
    ((i :: tr).toFinset ∪ st.toFinset) = (tr.toFinset ∪ (i :: st).toFinset) := by
  ext a
  simp

theorem repushUnion (i : Nat) (tr st : List Nat) :
    ((i :: tr).toFinset ∪ (i :: st).toFinset) = (tr.toFinset ∪ (i :: st).toFinset) := by
  ext a
  simp

/-- The size-budget invariant: the distinct nodes ever popped or still
stacked are counted by `overall_size`, which never exceeds the budget. -/
def sizeInv (N : Nat) (c : Conf) : Prop :=
  (c.trace.toFinset ∪ c.stack.toFinset).card ≤ c.size ∧ c.size ≤ N

theorem pySlice_length_le (l : List Nat) (a b : Nat) (hab : a ≤ b) :
    (pySlice l ((b : Int) - (a : Int))).length ≤ b - a := by
  unfold pySlice
  rw [if_neg (by omega)]
  have : ((b : Int) - (a : Int)).toNat = b - a := by omega
  rw [this]
  exact (List.length_take _ _).trans_le (by omega)

theorem card_union_middle (A B C : Finset Nat) :
    (A ∪ (B ∪ C)).card ≤ B.card + (A ∪ C).card := by
  have h : A ∪ (B ∪ C) = B ∪ (A ∪ C) := by
    ext x
    simp
    tauto
  rw [h]
  exact Finset.card_union_le _ _

theorem step_sizeInv (env : Env) (N : Nat) (hms : env.max_size = some N) (c : Conf)
    (h : sizeInv N c) : sizeInv N (step env c) := by
  obtain ⟨hcard, hsz⟩ := h
  rcases hres : c.result with _ | r
  case some => rw [step_final env c r hres]; exact ⟨hcard, hsz⟩
  rcases hstack : c.stack with _ | ⟨i, rest⟩
  case nil =>
    rw [step_empty env c hres hstack]
    exact ⟨hcard, hsz⟩
  rw [hstack] at hcard
  rcases hspec : (c.nodes i).spec with _ | sp
  case none =>
    rw [step_nospec env c i rest hres hstack hspec]
    refine ⟨?_, hsz⟩
    show ((i :: c.trace).toFinset ∪ rest.toFinset).card ≤ c.size
    rw [popUnion]
    exact hcard
  rcases hload : sp.load_ref with _ | name
  case some =>
    rw [step_loadref env c i rest sp name hres hstack hspec hload]
    refine ⟨?_, hsz⟩
    show ((i :: c.trace).toFinset ∪ (i :: rest).toFinset).card ≤ c.size
    rw [repushUnion]
    exact hcard
  by_cases hdep : effMaxDepth env sp ≤ (c.nodes i).depth
  · rw [step_truncate env c i rest sp hres hstack hspec hload hdep]
    refine ⟨?_, hsz⟩
    show ((i :: c.trace).toFinset ∪ rest.toFinset).card ≤ c.size
    rw [popUnion]
    exact hcard
  · rcases hdisp : dispatch env {c with stack := rest, result := none, trace := i :: c.trace}
        i (c.nodes i) sp with e | c2
    · rw [step_handler_err env c i rest sp e hres hstack hspec hload hdep hdisp]
      refine ⟨?_, hsz⟩
      show ((i :: c.trace).toFinset ∪ rest.toFinset).card ≤ c.size
      rw [popUnion]
      exact hcard
    · obtain ⟨hst2, htr2, hsz2, hres2⟩ := dispatch_keepsBk env _ i (c.nodes i) sp c2 hdisp
      have hPop : (c2.trace.toFinset ∪ c2.stack.toFinset).card ≤ c2.size := by
        rw [hst2, htr2, hsz2]
        show ((i :: c.trace).toFinset ∪ rest.toFinset).card ≤ c.size
        rw [popUnion]
        exact hcard
      have hRepush : (c2.trace.toFinset ∪ (i :: c2.stack).toFinset).card ≤ c2.size := by
        rw [hst2, htr2, hsz2]
        show ((i :: c.trace).toFinset ∪ (i :: rest).toFinset).card ≤ c.size
        rw [repushUnion]
        exact hcard
      have hszN : c2.size ≤ N := by rw [hsz2]; exact hsz
      rcases hstate : (c2.nodes i).state
      · rw [step_handler_delayed env c i rest sp c2 hres hstack hspec hload hdep hdisp hstate]
        exact ⟨hRepush, hszN⟩
      · rw [step_handler_tobuild env c i rest sp c2 hres hstack hspec hload hdep hdisp hstate]
        unfold pushSons
        rw [hms]
        dsimp only
        split
        · rename_i hbudget
          refine ⟨?_, le_refl N⟩
          show (c2.trace.toFinset ∪
            ((pySlice ((c2.nodes i).sons) ((N : Int) - (c2.size : Int))).reverse
              ++ i :: c2.stack).toFinset).card ≤ N
          rw [List.toFinset_append, List.toFinset_reverse]
          refine (card_union_middle _ _ _).trans ?_
          have h1 : (pySlice ((c2.nodes i).sons) ((N : Int) - (c2.size : Int))).toFinset.card
              ≤ N - c2.size :=
            (List.toFinset_card_le _).trans (pySlice_length_le _ _ _ hszN)
          omega
        · rename_i hbudget
          have hbudget2 : ¬ N ≤ c2.size + ((c2.nodes i).sons).length := hbudget
          refine ⟨?_, ?_⟩
          · show (c2.trace.toFinset ∪
              (((c2.nodes i).sons).reverse ++ i :: c2.stack).toFinset).card
              ≤ c2.size + ((c2.nodes i).sons).length
            rw [List.toFinset_append, List.toFinset_reverse]
            refine (card_union_middle _ _ _).trans ?_
            have h1 : ((c2.nodes i).sons).toFinset.card ≤ ((c2.nodes i).sons).length :=
              List.toFinset_card_le _
            omega
          · show c2.size + ((c2.nodes i).sons).length ≤ N
            omega
      · rw [step_handler_done env c i rest sp c2 hres hstack hspec hload hdep hdisp hstate]
        exact ⟨hPop, hszN⟩
      · rw [step_handler_trunc2 env c i rest sp c2 hres hstack hspec hload hdep hdisp hstate]
        exact ⟨hPop, hszN⟩

/-- An `integer` leaf with default parameters. -/
def intLeafSpec : Spec := leafSpec "integer"

/-- An array of exactly three integer leaves. -/
def arr3Spec : Spec :=
  .mk (some "array") none none none none [] (some intLeafSpec) [] none (some 3) (some 3)
    none .pnone

/-- A record with three always-present keys `a`, `b`, `c`, each an integer
leaf. -/
def rec3Spec : Spec :=
  .mk (some "record") none none none none
    [ (some (.inl (.str "a")), some intLeafSpec, none, some .cnull),
      (some (.inl (.str "b")), some intLeafSpec, none, some .cnull),
      (some (.inl (.str "c")), some intLeafSpec, none, some .cnull) ]
    none [] none none none none .pnone

/-- C4 counterexample: with `max_size = 2`, the three-element array spec has
two of its children cut by the size budget, yet they are not absent from
the enclosing composite's result: the array assembles all three slots and
the two never-evaluated children appear as null entries. -/
theorem C4_dropped_children_not_absent_counterexample :
    generateResult { globals := initGlobals, max_depth := 20, max_size := some 2, o := oracle0 }
      arr3Spec 6 = some (.ok (.arr [.int 0, .null, .null])) := rfl

/-- C4 amended: for a size budget `max_size = N` with `N ≥ 1`, at most `N`
distinct nodes are ever dispatched during one `generate` call (the pop log
never names more than `N` distinct arena slots); children dropped by the
cutoff are silently absent from an enclosing record's mapping (see the
second conjunct: of the record's three declared keys only one survives a
budget of 2) but appear as null entries in an enclosing array's sequence. -/
theorem C4_size_budget_bounds_evaluated_nodes :
    (∀ (env : Env) (s : Spec) (N fuel : Nat), env.max_size = some N → 1 ≤ N →
      ((runN env fuel (initConf s)).trace.toFinset).card ≤ N) ∧
    generateResult { globals := initGlobals, max_depth := 20, max_size := some 2, o := oracle0 }
      rec3Spec 6 = some (.ok (.obj [(.str "a", .int 0)])) := by
  constructor
  · intro env s N fuel hms hN
    have hinv : sizeInv N (runN env fuel (initConf s)) := by
      induction fuel with
      | zero =>
        refine ⟨?_, hN⟩
        show (([] : List Nat).toFinset ∪ [0].toFinset).card ≤ 1
        simp
      | succ fuel ih =>
        have : runN env (fuel + 1) (initConf s) = step env (runN env fuel (initConf s)) := by
          have e : fuel + 1 = fuel + 1 := rfl
          rw [show fuel + 1 = fuel + 1 from rfl, runN_add env fuel 1 (initConf s)]
          rfl
        rw [this]
        exact step_sizeInv env N hms _ ih
    refine le_trans ?_ (hinv.1.trans hinv.2)
    exact Finset.card_le_card (Finset.subset_union_left)
  · rfl

theorem C4_size_budget_bounds_evaluated_nodes_witness :
    ((runN { globals := initGlobals, max_depth := 20, max_size := some 2, o := oracle0 }
      6 (initConf arr3Spec)).trace.toFinset).card ≤ 2 := by
  exact C4_size_budget_bounds_evaluated_nodes.1
    { globals := initGlobals, max_depth := 20, max_size := some 2, o := oracle0 }
    arr3Spec 2 6 rfl (by omega)

/-! ### The self-referential record truncates at exactly `max_depth` levels -/

/-- The self-referential record: `record` registered as `n`, with
`max_depth = D` and one always-present key `next` whose value loads `n`. -/
def recDepthSpec (D : Nat) : Spec :=
  .mk (some "record") none none (some "n") (some D)
    [(some (.inl (.str "next")), some (loadSpec "n"), none, some .cnull)]
    none [] none none none none .pnone

theorem recDepth_registers (D : Nat) :
    newGenerator initGlobals (some (recDepthSpec D)) =
      Function.update initGlobals "n" (some (recDepthSpec D)) := by
  show parse_specif initGlobals (some (recDepthSpec D)) = _
  rw [parse_specif.eq_def]
  simp only [recDepthSpec, storeStep, Spec.store_ref]
  rw [parseKeys.eq_def]
  norm_num
  rw [parse_specif.eq_def]
  simp only [loadSpec, storeStep, Spec.store_ref]
  rw [parseKeys.eq_def]
  simp

/-- The generator environment for `recDepthSpec D`. -/
def recDepthEnv (D : Nat) : Env :=
  { globals := Function.update initGlobals "n" (some (recDepthSpec D)),
    max_depth := 20, max_size := none, o := oracle0 }

/-- The nested value produced by the self-referential record:
`nest m` is `m + 1` nested record levels, innermost empty. -/
def nest : Nat → JVal
  | 0 => .obj []
  | m + 1 => .obj [(.str "next", nest m)]

/-- The number of nested record levels along the `next` chain. -/
def nestCount : JVal → Nat
  | .obj [] => 1
  | .obj ((_, v) :: []) => nestCount v + 1
  | _ => 0

theorem nestCount_nest (m : Nat) : nestCount (nest m) = m + 1 := by
  induction m with
  | zero => rfl
  | succ m ih => simp [nest, nestCount, ih]

/-- A record level already expanded, awaiting its subtree (`TO_BUILD`). -/
def recTB (D i : Nat) : Node :=
  { spec := some (recDepthSpec D), state := .TO_BUILD, value := .pairs [(2*i+1, 2*i+2)],
    sons := [2*i+2], depth := i, scope := if i = 0 then none else some (i - 1) }

/-- The literal `next` name node of level `i` (a `done` value). -/
def nameDone (i : Nat) : Node :=
  { spec := some emptySpec, state := .DONE, value := .j (.str "next"), sons := [],
    depth := i + 1, scope := none }

/-- A record level whose subtree completed: DONE with its nested value. -/
def recDoneN (D i : Nat) : Node :=
  { spec := some (recDepthSpec D), state := .DONE, value := .j (nest (D - 1 - i)),
    sons := [2*i+2], depth := i, scope := if i = 0 then none else some (i - 1) }

/-- The depth-`D` child after the depth check fired: TRUNCATED, null. -/
def truncN (D : Nat) : Node :=
  { spec := some (recDepthSpec D), state := .TRUNCATED, value := .j .null, sons := [],
    depth := D, scope := if D = 0 then none else some (D - 1) }

/-- The pending child of level `d`, its spec not yet resolved. -/
def pendingAt (d : Nat) : Node :=
  { spec := some (loadSpec "n"), state := .DELAYED, value := .j .null, sons := [],
    depth := d, scope := if d = 0 then none else some (d - 1) }

/-- The pending child after `load_ref` substitution. -/
def pendingRes (D d : Nat) : Node :=
  { spec := some (recDepthSpec D), state := .DELAYED, value := .j .null, sons := [],
    depth := d, scope := if d = 0 then none else some (d - 1) }

/-- Arena contents during the descent, the frontier child at slot `2 d`. -/
def descNodes (D d : Nat) : Nat → Node := fun j =>
  if j < 2 * d then (if j % 2 = 0 then recTB D (j / 2) else nameDone (j / 2))
  else if j = 2 * d then pendingAt d
  else defaultNode

/-- Arena contents once the slot-`2 d` subtree has fully completed. -/
def ascNodes (D d : Nat) : Nat → Node := fun j =>
  if j < 2 * d then (if j % 2 = 0 then recTB D (j / 2) else nameDone (j / 2))
  else if j = 2 * d then (if d = D then truncN D else recDoneN D d)
  else if j < 2 * D then (if j % 2 = 0 then recDoneN D (j / 2) else nameDone (j / 2))
  else if j = 2 * D then truncN D
  else defaultNode

/-- The stack of enclosing TO_BUILD record levels below the frontier. -/
def stackTB : Nat → List Nat
  | 0 => []
  | d + 1 => 2 * d :: stackTB d

/-- Descent configuration: the level-`d` child is on top, unresolved. -/
def DS (D d : Nat) (tr : List Nat) : Conf :=
  { nodes := descNodes D d, next := 2 * d + 1, stack := 2 * d :: stackTB d,
    scopes := fun _ => [], nscopes := d, size := d + 1, k := 0, result := none, trace := tr }

/-- Post-completion configuration: the level-`d` subtree is fully resolved
and the enclosing levels wait on the stack. -/
def AS (D d : Nat) (tr : List Nat) : Conf :=
  { nodes := ascNodes D d, next := 2 * D + 1, stack := stackTB d,
    scopes := fun _ => [], nscopes := D, size := D + 1, k := 0, result := none, trace := tr }

/-- The descent configuration once the frontier child's spec has been
resolved through the reference table. -/

def RS (D d : Nat) (tr : List Nat) : Conf :=
  { nodes := Function.update (descNodes D d) (2 * d) (pendingRes D d), next := 2 * d + 1,
    stack := 2 * d :: stackTB d, scopes := fun _ => [], nscopes := d, size := d + 1,
    k := 0, result := none, trace := tr }

theorem descNodes_frontier (D d : Nat) : descNodes D d (2 * d) = pendingAt d := by
  simp [descNodes]

theorem C3_resolve (D d : Nat) (tr : List Nat) :
    step (recDepthEnv D) (DS D d tr) = RS D d (2 * d :: tr) := by
  have h := step_loadref (recDepthEnv D) (DS D d tr) (2 * d) (stackTB d) (loadSpec "n") "n"
    rfl rfl (by show (descNodes D d (2 * d)).spec = _; rw [descNodes_frontier]; rfl) rfl
  rw [h]
  show setNode (DS D d (2 * d :: tr)) (2 * d) _ = RS D d (2 * d :: tr)
  unfold setNode RS DS
  simp only [descNodes_frontier]
  congr 1

theorem descNodes_expand (D d : Nat) :
    Function.update (Function.update (Function.update (Function.update (descNodes D d) (2 * d) (pendingRes D d)) (2 * d + 1) (nameDone d)) (2 * d + 2) (pendingAt (d + 1))) (2 * d) (recTB D d) = descNodes D (d + 1) := by
  funext j
  by_cases h0 : j = 2 * d
  · subst h0
    have e1 : 2 * d < 2 * (d + 1) := by omega
    have e2 : 2 * d % 2 = 0 := by omega
    have e3 : 2 * d / 2 = d := by omega
    simp [descNodes, e1, e2, e3]
  by_cases h1 : j = 2 * d + 1
  · subst h1
    have e1 : 2 * d + 1 < 2 * (d + 1) := by omega
    have e2 : ¬ (2 * d + 1) % 2 = 0 := by omega
    have e3 : (2 * d + 1) / 2 = d := by omega
    simp [Function.update_apply, h0, descNodes, e1, e2, e3]
  by_cases h2 : j = 2 * d + 2
  · subst h2
    have e1 : ¬ 2 * d + 2 < 2 * (d + 1) := by omega
    have e2 : 2 * d + 2 = 2 * (d + 1) := by omega
    simp [Function.update_apply, h0, h1, descNodes, e1, e2]
  · simp only [Function.update_apply, if_neg h0, if_neg h1, if_neg h2]
    unfold descNodes
    split_ifs <;> first | rfl | omega

theorem C3_expand (D d : Nat) (hdD : d < D) (tr : List Nat) :
    step (recDepthEnv D) (RS D d tr) = DS D (d + 1) (2 * d :: tr) := by
  have hn : (RS D d tr).nodes (2 * d) = pendingRes D d := by
    show Function.update (descNodes D d) (2 * d) (pendingRes D d) (2 * d) = _
    simp
  have h6 : dispatch (recDepthEnv D)
      {RS D d tr with stack := stackTB d, result := none, trace := 2 * d :: tr}
      (2 * d) ((RS D d tr).nodes (2 * d)) (recDepthSpec D) =
      .ok ({RS D d tr with stack := stackTB d, result := none, trace := 2 * d :: tr, scopes := Function.update (fun _ => []) d [], nscopes := d + 1, next := 2 * d + 3, nodes := Function.update (Function.update (Function.update (Function.update (descNodes D d) (2 * d) (pendingRes D d)) (2 * d + 1) (nameDone d)) (2 * d + 2) (pendingAt (d + 1))) (2 * d) (recTB D d)}) := by
    rw [hn]
    show generate_record (recDepthEnv D) _ (2 * d) (pendingRes D d) (recDepthSpec D) = _
    unfold generate_record
    simp only [pendingRes, recDepthSpec, Spec.keys, recKeys, recReps, recPresence,
      RKey.chance?, RKey.name?, RKey.value?, RKey.repeat?, allocNode, doneNode, newNode,
      Option.getD, List.isEmpty_cons]
    simp [setNode, RS, recTB, nameDone, pendingAt, Bind.bind, Except.bind]
    funext j
    rcases eq_or_ne j (2 * d) with h0 | h0
    · subst h0; simp [recDepthSpec]
    · simp [Function.update_apply, h0]
  rw [step_handler_tobuild (recDepthEnv D) (RS D d tr) (2 * d) (stackTB d) (recDepthSpec D)
    _ rfl rfl (by rw [hn]; rfl) rfl
    (by rw [hn]; show ¬ effMaxDepth (recDepthEnv D) (recDepthSpec D) ≤ d; simp [effMaxDepth, recDepthSpec, Spec.max_depth?]; omega)
    h6 (by simp [recTB])]
  simp [pushSons, recDepthEnv, DS, stackTB, Nat.mul_succ]
  exact ⟨descNodes_expand D d, rfl, rfl, rfl⟩

theorem initConf_RS (D : Nat) : initConf (recDepthSpec D) = RS D 0 [] := by
  have hn : (fun j => if j = 0 then rootNode (recDepthSpec D) else defaultNode) =
      Function.update (descNodes D 0) (2 * 0) (pendingRes D 0) := by
    funext j
    by_cases h : j = 0
    · subst h; simp [descNodes, rootNode, pendingRes]
    · have h2 : ¬ (j = 2 * 0) := by omega
      simp [Function.update_apply, h, h2, descNodes]
  show Conf.mk (fun j => if j = 0 then rootNode (recDepthSpec D) else defaultNode) 1 [0] (fun _ => []) 0 1 0 none [] = _
  rw [hn]
  rfl

theorem C3_truncate (D : Nat) (tr : List Nat) :
    step (recDepthEnv D) (RS D D tr) = AS D D (2 * D :: tr) := by
  have hn : (RS D D tr).nodes (2 * D) = pendingRes D D := by
    show Function.update (descNodes D D) (2 * D) (pendingRes D D) (2 * D) = _
    simp
  rw [step_truncate (recDepthEnv D) (RS D D tr) (2 * D) (stackTB D) (recDepthSpec D)
    rfl rfl (by rw [hn]; rfl) rfl (by rw [hn]; show D ≤ D; omega)]
  unfold setNode AS
  dsimp only
  rw [hn]
  congr 1
  funext j
  by_cases h0 : j = 2 * D
  · subst h0
    show Function.update (Function.update (descNodes D D) (2 * D) (pendingRes D D)) (2 * D) _ (2 * D) = _
    simp [ascNodes, pendingRes, truncN]
  · show Function.update (Function.update (descNodes D D) (2 * D) (pendingRes D D)) (2 * D) _ j = _
    simp only [Function.update_apply, if_neg h0]
    unfold descNodes ascNodes
    split_ifs <;> first | rfl | omega

theorem ascNodes_pop (D d : Nat) (hd : d < D) :
    Function.update (ascNodes D (d + 1)) (2 * d) (recDoneN D d) = ascNodes D d := by
  funext j
  by_cases h0 : j = 2 * d
  · subst h0
    have e1 : ¬ 2 * d < 2 * d := by omega
    have e2 : d ≠ D := by omega
    simp [ascNodes, e1, e2]
  · simp only [Function.update_apply, if_neg h0]
    by_cases h1 : j = 2 * d + 1
    · subst h1
      have e1 : 2 * d + 1 < 2 * (d + 1) := by omega
      have e2 : ¬ (2 * d + 1) % 2 = 0 := by omega
      have e3 : (2 * d + 1) / 2 = d := by omega
      have e4 : ¬ 2 * d + 1 < 2 * d := by omega
      have e5 : 2 * d + 1 < 2 * D := by omega
      simp [ascNodes, e1, e2, e3, e4, e5, h0]
    · by_cases h2 : j = 2 * d + 2
      · subst h2
        have e1 : ¬ 2 * d + 2 < 2 * (d + 1) := by omega
        have e2 : 2 * d + 2 = 2 * (d + 1) := by omega
        have e3 : ¬ 2 * d + 2 < 2 * d := by omega
        have e4 : (2 * d + 2) % 2 = 0 := by omega
        have e5 : (2 * d + 2) / 2 = d + 1 := by omega
        by_cases hD : d + 1 = D
        · have e6 : ¬ 2 * d + 2 < 2 * D := by omega
          have e7 : 2 * d + 2 = 2 * D := by omega
          simp [ascNodes, e1, e2, e3, e6, e7, h0, hD]
          rw [if_neg (by omega : ¬ D < d), if_neg (by omega : ¬ D = d)]
        · have e6 : 2 * d + 2 < 2 * D := by omega
          simp [ascNodes, e1, e2, e3, e4, e5, e6, h0, hD]
          rw [if_pos (by omega : d + 1 < D)]
      · unfold ascNodes
        split_ifs <;> first | rfl | omega

theorem C3_ascend (D d : Nat) (hd : d < D) (tr : List Nat) :
    step (recDepthEnv D) (AS D (d + 1) tr) = AS D d (2 * d :: tr) := by
  have hn : (AS D (d + 1) tr).nodes (2 * d) = recTB D d := by
    show ascNodes D (d + 1) (2 * d) = _
    have e1 : 2 * d < 2 * (d + 1) := by omega
    have e2 : 2 * d % 2 = 0 := by omega
    have e3 : 2 * d / 2 = d := by omega
    simp [ascNodes, e1, e2, e3]
  have hk : ascNodes D (d + 1) (2 * d + 1) = nameDone d := by
    have e1 : 2 * d + 1 < 2 * (d + 1) := by omega
    have e2 : ¬ (2 * d + 1) % 2 = 0 := by omega
    have e3 : (2 * d + 1) / 2 = d := by omega
    simp [ascNodes, e1, e2, e3]
  have hv : ascNodes D (d + 1) (2 * d + 2) =
      (if d + 1 = D then truncN D else recDoneN D (d + 1)) := by
    have e1 : ¬ 2 * d + 2 < 2 * (d + 1) := by omega
    have e2 : 2 * d + 2 = 2 * (d + 1) := by omega
    simp [ascNodes, e1, e2]
  have h6 : dispatch (recDepthEnv D)
      {AS D (d + 1) tr with stack := stackTB d, result := none, trace := 2 * d :: tr}
      (2 * d) ((AS D (d + 1) tr).nodes (2 * d)) (recDepthSpec D) =
      .ok (setNode {AS D (d + 1) tr with stack := stackTB d, result := none, trace := 2 * d :: tr} (2 * d) (recDoneN D d)) := by
    rw [hn]
    show generate_record (recDepthEnv D) _ (2 * d) (recTB D d) (recDepthSpec D) = _
    unfold generate_record
    dsimp only [recTB, AS]
    simp only [List.foldl_cons, List.foldl_nil]
    by_cases hD : d + 1 = D
    · subst hD
      simp only [hk, hv, if_pos rfl, truncN]
      simp [dictInsert, recDoneN, nameDone, nest, setNode, recTB,
        show d + 1 - 1 - d = 0 by omega]
    · simp only [hk, hv, if_neg hD]
      simp [dictInsert, recDoneN, nameDone, getJVal, setNode, recTB,
        show D - 1 - d = (D - 1 - (d + 1)) + 1 by omega, nest]
  rw [step_handler_done (recDepthEnv D) (AS D (d + 1) tr) (2 * d) (stackTB d) (recDepthSpec D)
    _ rfl rfl (by rw [hn]; rfl) rfl
    (by rw [hn]; show ¬ D ≤ d; omega)
    h6 (by simp [setNode, recDoneN])]
  unfold setNode AS
  congr 1
  exact ascNodes_pop D d hd

theorem C3_finish (D : Nat) (hD : 1 ≤ D) (tr : List Nat) :
    step (recDepthEnv D) (AS D 0 tr) =
      {AS D 0 tr with result := some (.ok (nest (D - 1)))} := by
  rw [step_empty _ _ rfl rfl]
  have h0 : (AS D 0 tr).nodes 0 = recDoneN D 0 := by
    show ascNodes D 0 0 = _
    have e1 : ¬ (0 : Nat) < 2 * 0 := by omega
    have e2 : ¬ (0 : Nat) = D := by omega
    simp [ascNodes, e2]
  rw [h0]
  rfl

theorem C3_up (D : Nat) : ∀ n d tr, d + n = D →
    ∃ tr2, runN (recDepthEnv D) (2 * n + 1) (RS D d tr) = AS D D tr2 := by
  intro n
  induction n with
  | zero =>
    intro d tr h
    have hd : d = D := by omega
    subst hd
    exact ⟨2 * d :: tr, C3_truncate d tr⟩
  | succ n ih =>
    intro d tr h
    have hdD : d < D := by omega
    have hsplit : 2 * (n + 1) + 1 = 2 + (2 * n + 1) := by omega
    rw [hsplit, runN_add]
    have h2 : runN (recDepthEnv D) 2 (RS D d tr) =
        RS D (d + 1) (2 * (d + 1) :: 2 * d :: tr) := by
      show runN (recDepthEnv D) 1 (step (recDepthEnv D) (RS D d tr)) = _
      rw [C3_expand D d hdD tr]
      show step (recDepthEnv D) (DS D (d + 1) (2 * d :: tr)) = _
      exact C3_resolve D (d + 1) (2 * d :: tr)
    rw [h2]
    exact ih (d + 1) (2 * (d + 1) :: 2 * d :: tr) (by omega)

theorem C3_down (D : Nat) : ∀ d tr, d ≤ D →
    ∃ tr2, runN (recDepthEnv D) d (AS D d tr) = AS D 0 tr2 := by
  intro d
  induction d with
  | zero => exact fun tr _ => ⟨tr, rfl⟩
  | succ d ih =>
    intro tr h
    rw [runN_succ_front, C3_ascend D d (by omega) tr]
    exact ih (2 * d :: tr) (by omega)

theorem C3_run (D : Nat) (hD : 1 ≤ D) :
    generateResult (recDepthEnv D) (recDepthSpec D) (3 * D + 2) = some (.ok (nest (D - 1))) := by
  show (runN (recDepthEnv D) (3 * D + 2) (initConf (recDepthSpec D))).result = _
  rw [initConf_RS]
  have hsplit : 3 * D + 2 = (2 * D + 1) + (D + 1) := by omega
  rw [hsplit, runN_add]
  obtain ⟨tr2, h1⟩ := C3_up D D 0 [] (by omega)
  rw [h1]
  rw [runN_add (recDepthEnv D) D 1]
  obtain ⟨tr3, h2⟩ := C3_down D D tr2 le_rfl
  rw [h2]
  show (step (recDepthEnv D) (AS D 0 tr3)).result = _
  rw [C3_finish D hD tr3]

/-- C3: whenever an evaluated node's depth has reached its effective
max-depth (node-local override, else the generator default), the engine
marks it TRUNCATED with value null and spawns no children for it; and the
self-referential record spec with `max_depth = D` (for any `D ≥ 1`)
generates a value of exactly `D` nested record levels, the innermost empty
where the depth check truncated the next child to null. -/
theorem C3_depth_truncation (D : Nat) (hD : 1 ≤ D) :
    (∀ env c i rest sp, c.result = none → c.stack = i :: rest →
      (c.nodes i).spec = some sp → sp.load_ref = none →
      effMaxDepth env sp ≤ (c.nodes i).depth →
      step env c = setNode {c with stack := rest, trace := i :: c.trace} i
        {(c.nodes i) with state := .TRUNCATED, value := .j .null}) ∧
    generateResult (recDepthEnv D) (recDepthSpec D) (3 * D + 2) =
      some (.ok (nest (D - 1))) ∧
    nestCount (nest (D - 1)) = D := by
  refine ⟨fun env c i rest sp h1 h2 h3 h4 h5 =>
    step_truncate env c i rest sp h1 h2 h3 h4 h5, C3_run D hD, ?_⟩
  rw [nestCount_nest]
  omega

/-- Witness for C3 at `D = 2`: two nested levels, third truncated. -/
theorem C3_depth_truncation_witness :
    1 ≤ 2 ∧
    ((∀ env c i rest sp, c.result = none → c.stack = i :: rest →
      (c.nodes i).spec = some sp → sp.load_ref = none →
      effMaxDepth env sp ≤ (c.nodes i).depth →
      step env c = setNode {c with stack := rest, trace := i :: c.trace} i
        {(c.nodes i) with state := .TRUNCATED, value := .j .null}) ∧
    generateResult (recDepthEnv 2) (recDepthSpec 2) 8 =
      some (.ok (nest 1)) ∧
    nestCount (nest 1) = 2) :=
  ⟨by decide, C3_depth_truncation 2 (by decide)⟩

/-! ### The enum formatter and its inverse -/

/-- The string `generate_string_enum` produces for counter value `n` under
pattern `"key_%04d"`. -/
def enumKey (n : Nat) : String :=
  String.mk ('k' :: 'e' :: 'y' :: '_' :: padTo true 4 (natDec n))

theorem pyMod_key (n : Nat) : pyMod "key_%04d" n = .ok (enumKey n) := by
  show (do
    let (pre, rest) ← scanFmt "key_%04d".data
    match rest with
    | none => Except.error .typeError
    | some (d, post) =>
      Except.ok (String.mk (pre ++ padTo d.zeroFlag d.width (natDec n) ++ post))) = _
  have hs : scanFmt "key_%04d".data =
      .ok (['k', 'e', 'y', '_'], some (⟨true, 4⟩, [])) := by
    show scanFmt ['k', 'e', 'y', '_', '%', '0', '4', 'd'] = _
    simp [scanFmt, readWidth, Bind.bind, Except.bind]
  rw [hs]
  simp [Bind.bind, Except.bind, enumKey]

/-- One step of the base-10 left-to-right reading used to invert `natDec`:
the pair carries (value so far, place weight). -/
def decStep (c : Char) (p : Nat × Nat) : Nat × Nat :=
  (p.1 + (c.toNat - 48) * p.2, p.2 * 10)

def decPair (ds : List Char) : Nat × Nat := List.foldr decStep (0, 1) ds

/-- Base-10 value of a digit string, the inverse of `natDec`. -/
def decValue (ds : List Char) : Nat := (decPair ds).1

theorem decPair_natDecAux (n : Nat) : ∀ acc : List Char,
    (decPair (natDecAux n acc)).1 = n * (decPair acc).2 + (decPair acc).1 := by
  induction n using Nat.strong_induction_on with
  | _ n ih =>
    intro acc
    match n with
    | 0 => simp [natDecAux]
    | m + 1 =>
      rw [natDecAux]
      rw [ih ((m + 1) / 10) (by omega)]
      have hr : (m + 1) % 10 < 10 := by omega
      have hch : (Char.ofNat (48 + (m + 1) % 10)).toNat = 48 + (m + 1) % 10 := by
        have h10 : (m + 1) % 10 < 10 := by omega
        set r := (m + 1) % 10 with hrdef
        interval_cases r <;> decide
      have key : ∀ p1 p2 : Nat,
          (m + 1) / 10 * (p2 * 10) + (p1 + (48 + (m + 1) % 10 - 48) * p2) =
            (m + 1) * p2 + p1 := by
        intro p1 p2
        have h48 : 48 + (m + 1) % 10 - 48 = (m + 1) % 10 := by omega
        rw [h48]
        have hdm : 10 * ((m + 1) / 10) + (m + 1) % 10 = m + 1 := Nat.div_add_mod (m + 1) 10
        conv => rhs; rw [← hdm]
        ring
      simp only [decPair, List.foldr_cons, decStep, hch]
      exact key _ _

theorem decValue_natDec (n : Nat) : decValue (natDec n) = n := by
  unfold natDec
  by_cases h : n = 0
  · subst h; simp
    rfl
  · rw [if_neg h]
    show (decPair (natDecAux n [])).1 = n
    rw [decPair_natDecAux n []]
    show n * 1 + 0 = n
    omega

theorem decValue_pad (k : Nat) (ds : List Char) :
    decValue (List.replicate k '0' ++ ds) = decValue ds := by
  induction k with
  | zero => rfl
  | succ k ih =>
    show (decPair ('0' :: (List.replicate k '0' ++ ds))).1 = _
    simp only [decPair, List.foldr_cons, decStep]
    show (decPair (List.replicate k '0' ++ ds)).1 + ('0'.toNat - 48) * _ = _
    have : ('0'.toNat - 48) = 0 := by decide
    rw [this]
    simpa using ih

theorem enumKey_inj {a b : Nat} (h : enumKey a = enumKey b) : a = b := by
  have hd := congrArg String.data h
  simp only [enumKey] at hd
  have hp : padTo true 4 (natDec a) = padTo true 4 (natDec b) := by
    injection hd with _ hd1
    injection hd1 with _ hd2
    injection hd2 with _ hd3
    injection hd3 with _ hd4
  have hv := congrArg decValue hp
  simpa [padTo, decValue_pad, decValue_natDec] using hv

/-! ### The enum record spec and its run -/

/-- `{"type": "string", "method": "enum", "pattern": "key_%04d"}`. -/
def enumSpec : Spec :=
  .mk (some "string") (some "enum") none none none [] none [] none none none
    (some "key_%04d") .pnone

/-- `{"type": "fixed", "value": null}`. -/
def fixedNullSpec : Spec :=
  .mk (some "fixed") none none none none [] none [] (some .null) none none none .pnone

/-- The record key entry: spec-valued name (the enum), fixed-null value,
always present, repeated `G` times. -/
def eKey (G : Nat) : RKey :=
  (some (.inr enumSpec), some fixedNullSpec, some (G : Int), some Chance.cnull)

/-- The surrounding record: one key repeated `G` times in one scope. -/
def enumRecSpec (G : Nat) : Spec :=
  .mk (some "record") none none none none [eKey G] none [] none none none none .pnone

def enumEnv : Env :=
  { globals := initGlobals, max_depth := 20, max_size := none, o := oracle0 }

/-- The `(name_index, value_index)` pairs allocated for `m` repetitions
starting at arena slot `ν`. -/
def repPairs (ν : Nat) : Nat → List (Nat × Nat)
  | 0 => []
  | m + 1 => (ν, ν + 1) :: repPairs (ν + 2) m

/-- The `to_be_done` children, in allocation order. -/
def repTbd (ν : Nat) : Nat → List Nat
  | 0 => []
  | m + 1 => ν :: (ν + 1) :: repTbd (ν + 2) m

/-- A pending enum name node (child of the record root). -/
def enumPend : Node :=
  { spec := some enumSpec, state := .DELAYED, value := .j .null, sons := [],
    depth := 1, scope := some 0 }

/-- A pending fixed-null value node. -/
def fixedPend : Node :=
  { spec := some fixedNullSpec, state := .DELAYED, value := .j .null, sons := [],
    depth := 1, scope := some 0 }

/-- A resolved enum name node holding the formatted counter value `c`. -/
def enumDoneN (c : Nat) : Node :=
  { spec := some enumSpec, state := .DONE, value := .j (.str (enumKey c)), sons := [],
    depth := 1, scope := some 0 }

/-- A resolved fixed-null value node. -/
def fixedDoneN : Node :=
  { spec := some fixedNullSpec, state := .DONE, value := .j .null, sons := [],
    depth := 1, scope := some 0 }

/-- The record root after its DELAYED expansion. -/
def rootTBNode (G : Nat) : Node :=
  { spec := some (enumRecSpec G), state := .TO_BUILD, value := .pairs (repPairs 1 G),
    sons := repTbd 1 G, depth := 0, scope := none }

/-- The arena after `m` repetitions have been allocated from slot `ν` on. -/
def repNodes (f : Nat → Node) (ν : Nat) : Nat → (Nat → Node)
  | 0 => f
  | m + 1 =>
    repNodes (Function.update (Function.update f ν enumPend) (ν + 1) fixedPend) (ν + 2) m

/-- The descending work stack `[s, s-1, ..., 1]`. -/
def stackDown : Nat → List Nat
  | 0 => []
  | s + 1 => (s + 1) :: stackDown s

/-- The scope-0 counter table once `c` enum draws have happened. -/
def cntState (c : Nat) : List (String × Nat) :=
  if c = 0 then [] else [("key_%04d", c)]

/-- The arena while the children are popped: `s` children remain pending. -/
def enumArena (G s : Nat) : Nat → Node := fun i =>
  if i = 0 then rootTBNode G
  else if i ≤ s then (if i % 2 = 1 then enumPend else fixedPend)
  else if i ≤ 2 * G then
    (if i % 2 = 1 then enumDoneN (G - 1 - i / 2) else fixedDoneN)
  else defaultNode

/-- The engine configuration with `s` children still pending. -/
def ES (G s : Nat) (tr : List Nat) : Conf :=
  { nodes := enumArena G s, next := 2 * G + 1, stack := stackDown s ++ [0],
    scopes := Function.update (fun _ => []) 0 (cntState (G - (s + 1) / 2)),
    nscopes := 1, size := 2 * G + 1, k := 0, result := none, trace := tr }

/-- The object entries assembled by the record's TO_BUILD phase. -/
def eobjList (G : Nat) : List (JVal × JVal) :=
  (List.range G).map (fun j => (JVal.str (enumKey (G - 1 - j)), JVal.null))

/-- The terminal configuration of the enum-record run. -/
def FS (G : Nat) (tr : List Nat) : Conf :=
  { nodes := Function.update (enumArena G 0) 0
      { spec := some (enumRecSpec G), state := .DONE,
        value := .j (.obj (eobjList G)), sons := repTbd 1 G, depth := 0, scope := none },
    next := 2 * G + 1, stack := [],
    scopes := Function.update (fun _ => []) 0 (cntState G),
    nscopes := 1, size := 2 * G + 1, k := 0, result := none, trace := tr }

theorem repTbd_eq_range (ν : Nat) : ∀ m, repTbd ν m = List.range' ν (2 * m) := by
  intro m
  induction m generalizing ν with
  | zero => rfl
  | succ m ih =>
    show ν :: (ν + 1) :: repTbd (ν + 2) m = List.range' ν (2 * (m + 1))
    rw [show 2 * (m + 1) = (2 * m) + 1 + 1 by omega]
    rw [List.range'_succ, List.range'_succ, ih (ν + 2)]

theorem stackDown_eq (s : Nat) : stackDown s = (List.range' 1 s).reverse := by
  induction s with
  | zero => rfl
  | succ s ih =>
    show (s + 1) :: stackDown s = _
    rw [ih, List.range'_1_concat, List.reverse_append]
    simp [Nat.add_comm 1 s]

theorem repTbd_reverse (G : Nat) : (repTbd 1 G).reverse = stackDown (2 * G) := by
  rw [repTbd_eq_range, stackDown_eq]

theorem repTbd_length (G : Nat) : (repTbd 1 G).length = 2 * G := by
  rw [repTbd_eq_range, List.length_range']

theorem repNodes_apply (m : Nat) : ∀ (f : Nat → Node) (ν i : Nat),
    repNodes f ν m i =
      if ν ≤ i ∧ i < ν + 2 * m then (if (i - ν) % 2 = 0 then enumPend else fixedPend)
      else f i := by
  induction m with
  | zero =>
    intro f ν i
    show f i = _
    rw [if_neg (by omega : ¬ (ν ≤ i ∧ i < ν + 2 * 0))]
  | succ m ih =>
    intro f ν i
    show repNodes (Function.update (Function.update f ν enumPend) (ν + 1) fixedPend) (ν + 2) m i = _
    rw [ih]
    by_cases h1 : ν + 2 ≤ i ∧ i < ν + 2 + 2 * m
    · rw [if_pos h1]
      have hpar : (i - (ν + 2)) % 2 = (i - ν) % 2 := by omega
      rw [hpar, if_pos (show ν ≤ i ∧ i < ν + 2 * (m + 1) by omega)]
    · rw [if_neg h1]
      by_cases h2 : i = ν
      · subst h2
        rw [Function.update_noteq (by omega), Function.update_same,
          if_pos (show i ≤ i ∧ i < i + 2 * (m + 1) by omega),
          if_pos (show (i - i) % 2 = 0 by omega)]
      · by_cases h3 : i = ν + 1
        · subst h3
          rw [Function.update_same,
            if_pos (show ν ≤ ν + 1 ∧ ν + 1 < ν + 2 * (m + 1) by omega),
            if_neg (show ¬ (ν + 1 - ν) % 2 = 0 by omega)]
        · rw [Function.update_noteq h3, Function.update_noteq h2,
            if_neg (by omega : ¬ (ν ≤ i ∧ i < ν + 2 * (m + 1)))]

theorem recRepsEnum (G : Nat) (m : Nat) : ∀ (c : Conf) (kt : List String)
    (pairs : List (Nat × Nat)) (tbd : List Nat),
    recReps oracle0 (rootNode (enumRecSpec G)) 0 (eKey G) m c kt pairs tbd =
      .ok ({c with nodes := repNodes c.nodes c.next m, next := c.next + 2 * m},
           pairs ++ repPairs c.next m, tbd ++ repTbd c.next m) := by
  induction m with
  | zero =>
    intro c kt pairs tbd
    show Except.ok (c, pairs, tbd) = _
    simp [repNodes, repPairs, repTbd]
  | succ m ih =>
    intro c kt pairs tbd
    show recReps oracle0 (rootNode (enumRecSpec G)) 0 (eKey G) m {c with nodes := Function.update (Function.update c.nodes c.next enumPend) (c.next + 1) fixedPend, next := c.next + 1 + 1} kt (pairs ++ [(c.next, c.next + 1)]) (tbd ++ [c.next, c.next + 1]) = _
    rw [ih]
    simp only [Except.ok.injEq, Prod.mk.injEq]
    refine ⟨?_, ?_, ?_⟩
    · show ({c with nodes := repNodes (Function.update (Function.update c.nodes c.next enumPend) (c.next + 1) fixedPend) (c.next + 1 + 1) m, next := c.next + 1 + 1 + 2 * m} : Conf) = _
      congr 1
      omega
    · simp [repPairs]
    · simp [repTbd]

theorem enumArena_init (G : Nat) :
    Function.update (repNodes (fun j => if j = 0 then rootNode (enumRecSpec G) else defaultNode) 1 G) 0 (rootTBNode G) = enumArena G (2 * G) := by
  funext i
  by_cases h0 : i = 0
  · subst h0
    rw [Function.update_same]
    show _ = rootTBNode G
    rfl
  · rw [Function.update_noteq h0, repNodes_apply]
    by_cases hle : 1 ≤ i ∧ i < 1 + 2 * G
    · rw [if_pos hle]
      show _ = enumArena G (2 * G) i
      unfold enumArena
      rw [if_neg h0, if_pos (by omega : i ≤ 2 * G)]
      by_cases hp : i % 2 = 1
      · rw [if_pos (by omega : (i - 1) % 2 = 0), if_pos hp]
      · rw [if_neg (by omega : ¬ (i - 1) % 2 = 0), if_neg hp]
    · have h1 : ¬ i ≤ 2 * G := by omega
      rw [if_neg hle, if_neg h0]
      simp [enumArena, h0, h1]

theorem C8_expandRoot (G : Nat) (hG : 1 ≤ G) :
    step enumEnv (initConf (enumRecSpec G)) = ES G (2 * G) [0] := by
  have hn : (initConf (enumRecSpec G)).nodes 0 = rootNode (enumRecSpec G) := rfl
  have hrep : ((eKey G).repeat?.getD 1).toNat = G := rfl
  have hne : (repTbd 1 G).isEmpty = false := by
    match G, hG with
    | G' + 1, _ => rfl
  have h6 : dispatch enumEnv {initConf (enumRecSpec G) with stack := [], result := none, trace := [0]} 0 ((initConf (enumRecSpec G)).nodes 0) (enumRecSpec G) =
      .ok (setNode {initConf (enumRecSpec G) with stack := [], result := none, trace := [0], scopes := Function.update (fun _ => []) 0 [], nscopes := 1, nodes := repNodes (initConf (enumRecSpec G)).nodes 1 G, next := 1 + 2 * G} 0 (rootTBNode G)) := by
    rw [hn]
    show generate_record enumEnv _ 0 (rootNode (enumRecSpec G)) (enumRecSpec G) = _
    unfold generate_record
    dsimp only [rootNode]
    show (match recKeys enumEnv.o (rootNode (enumRecSpec G)) 0 (Spec.keys (enumRecSpec G)) {initConf (enumRecSpec G) with stack := [], result := none, trace := [0], scopes := Function.update (fun _ => []) 0 [], nscopes := 1} [] [] [] with
      | Except.error e => (Except.error e : Except PyErr Conf)
      | Except.ok (c2, pairs, tbd) =>
        if tbd.isEmpty then
          Except.ok (setNode c2 0 {rootNode (enumRecSpec G) with state := .DONE, value := .j (.obj [])})
        else
          Except.ok (setNode c2 0 {rootNode (enumRecSpec G) with state := .TO_BUILD, value := .pairs pairs, sons := tbd})) = _
    have hk : recKeys enumEnv.o (rootNode (enumRecSpec G)) 0 (Spec.keys (enumRecSpec G)) {initConf (enumRecSpec G) with stack := [], result := none, trace := [0], scopes := Function.update (fun _ => []) 0 [], nscopes := 1} [] [] [] =
        .ok ({initConf (enumRecSpec G) with stack := [], result := none, trace := [0], scopes := Function.update (fun _ => []) 0 [], nscopes := 1, nodes := repNodes (initConf (enumRecSpec G)).nodes 1 G, next := 1 + 2 * G}, repPairs 1 G, repTbd 1 G) := by
      show (do
        let r ← recReps enumEnv.o (rootNode (enumRecSpec G)) 0 (eKey G) (((eKey G).repeat?.getD 1).toNat) {initConf (enumRecSpec G) with stack := [], result := none, trace := [0], scopes := Function.update (fun _ => []) 0 [], nscopes := 1} [] [] []
        recKeys enumEnv.o (rootNode (enumRecSpec G)) 0 [] r.1 [] r.2.1 r.2.2) = _
      rw [hrep, show enumEnv.o = oracle0 from rfl, recRepsEnum G G]
      simp [recKeys, Bind.bind, Except.bind, initConf]
    rw [hk]
    dsimp only
    rw [if_neg (show ¬ ((repTbd 1 G).isEmpty = true) by rw [hne]; simp)]
    rfl
  rw [step_handler_tobuild enumEnv (initConf (enumRecSpec G)) 0 [] (enumRecSpec G)
    _ rfl rfl (by rw [hn]; rfl) rfl (by rw [hn]; show ¬ (20 : Nat) ≤ 0; omega) h6
    (by simp [setNode, rootTBNode])]
  simp only [setNode, Function.update_same]
  show pushSons enumEnv _ (rootTBNode G).sons = ES G (2 * G) [0]
  show pushSons enumEnv _ (repTbd 1 G) = ES G (2 * G) [0]
  unfold pushSons ES
  dsimp only [enumEnv]
  rw [repTbd_reverse, repTbd_length]
  congr 1
  · exact enumArena_init G
  · omega
  · rw [show G - (2 * G + 1) / 2 = 0 by omega]
    rfl
  · show (1 : Nat) + 2 * G = 2 * G + 1
    omega

theorem countOf_cntState (c : Nat) : countOf (cntState c) "key_%04d" = c := by
  cases c with
  | zero => rfl
  | succ c => simp [cntState, countOf, List.find?]

theorem bumpCount_cntState (c : Nat) :
    bumpCount (cntState c) "key_%04d" = cntState (c + 1) := by
  cases c with
  | zero => rfl
  | succ c => simp [cntState, bumpCount]

theorem enumArena_pop_odd (G s : Nat) (hs : s < 2 * G) (hpar : (s + 1) % 2 = 1) :
    Function.update (enumArena G (s + 1)) (s + 1) (enumDoneN (G - 1 - (s + 1) / 2)) =
      enumArena G s := by
  funext i
  by_cases h0 : i = s + 1
  · subst h0
    rw [Function.update_same]
    show _ = enumArena G s (s + 1)
    unfold enumArena
    rw [if_neg (by omega : ¬ s + 1 = 0), if_neg (by omega : ¬ s + 1 ≤ s),
      if_pos (by omega : s + 1 ≤ 2 * G), if_pos hpar]
  · rw [Function.update_noteq h0]
    unfold enumArena
    split_ifs <;> first | rfl | omega

theorem enumArena_pop_even (G s : Nat) (hs : s < 2 * G) (hpar : ¬ (s + 1) % 2 = 1) :
    Function.update (enumArena G (s + 1)) (s + 1) fixedDoneN = enumArena G s := by
  funext i
  by_cases h0 : i = s + 1
  · subst h0
    rw [Function.update_same]
    show _ = enumArena G s (s + 1)
    unfold enumArena
    rw [if_neg (by omega : ¬ s + 1 = 0), if_neg (by omega : ¬ s + 1 ≤ s),
      if_pos (by omega : s + 1 ≤ 2 * G), if_neg hpar]
  · rw [Function.update_noteq h0]
    unfold enumArena
    split_ifs <;> first | rfl | omega

theorem ES_step (G s : Nat) (hs : s < 2 * G) (tr : List Nat) :
    step enumEnv (ES G (s + 1) tr) = ES G s ((s + 1) :: tr) := by
  have hsc : (ES G (s + 1) tr).scopes 0 = cntState (G - (s + 1 + 1) / 2) := by
    show Function.update (fun _ => []) 0 (cntState (G - (s + 1 + 1) / 2)) 0 = _
    rw [Function.update_same]
  by_cases hpar : (s + 1) % 2 = 1
  · -- an enum name node
    have hn : (ES G (s + 1) tr).nodes (s + 1) = enumPend := by
      show enumArena G (s + 1) (s + 1) = enumPend
      unfold enumArena
      rw [if_neg (by omega : ¬ s + 1 = 0), if_pos (le_refl (s + 1)), if_pos hpar]
    have h6 : dispatch enumEnv {ES G (s + 1) tr with stack := stackDown s ++ [0], result := none, trace := (s + 1) :: tr} (s + 1) ((ES G (s + 1) tr).nodes (s + 1)) enumSpec =
        .ok {ES G (s + 1) tr with stack := stackDown s ++ [0], result := none, trace := (s + 1) :: tr, scopes := Function.update (fun _ => []) 0 (cntState (G - (s + 1) / 2)), nodes := Function.update (enumArena G (s + 1)) (s + 1) (enumDoneN (G - (s + 1 + 1) / 2))} := by
      rw [hn]
      show generate_string_enum enumEnv _ (s + 1) enumPend enumSpec = _
      unfold generate_string_enum
      dsimp only [enumPend, ES]
      rw [show enumSpec.pattern?.getD "%d" = "key_%04d" from rfl]
      rw [Function.update_same, countOf_cntState, bumpCount_cntState, pyMod_key]
      show Except.ok (setNode _ (s + 1) _) = _
      unfold setNode
      dsimp only
      simp only [Function.update_idem]
      rw [show G - (s + 1 + 1) / 2 + 1 = G - (s + 1) / 2 by omega]
      rfl
    rw [step_handler_done enumEnv (ES G (s + 1) tr) (s + 1) (stackDown s ++ [0]) enumSpec
      _ rfl (by rfl) (by rw [hn]; rfl) rfl
      (by rw [hn]; show ¬ (20 : Nat) ≤ 1; omega) h6
      (by dsimp only; rw [Function.update_same]; rfl)]
    show ({ES G (s + 1) tr with stack := stackDown s ++ [0], result := none, trace := (s + 1) :: tr, scopes := Function.update (fun _ => []) 0 (cntState (G - (s + 1) / 2)), nodes := Function.update (enumArena G (s + 1)) (s + 1) (enumDoneN (G - (s + 1 + 1) / 2))} : Conf) = ES G s ((s + 1) :: tr)
    unfold ES
    dsimp only
    rw [show G - (s + 1 + 1) / 2 = G - 1 - (s + 1) / 2 by omega]
    congr 1
    exact enumArena_pop_odd G s hs hpar
  · -- a fixed null value node
    have hn : (ES G (s + 1) tr).nodes (s + 1) = fixedPend := by
      show enumArena G (s + 1) (s + 1) = fixedPend
      unfold enumArena
      rw [if_neg (by omega : ¬ s + 1 = 0), if_pos (le_refl (s + 1)), if_neg hpar]
    have h6 : dispatch enumEnv {ES G (s + 1) tr with stack := stackDown s ++ [0], result := none, trace := (s + 1) :: tr} (s + 1) ((ES G (s + 1) tr).nodes (s + 1)) fixedNullSpec =
        .ok {ES G (s + 1) tr with stack := stackDown s ++ [0], result := none, trace := (s + 1) :: tr, nodes := Function.update (enumArena G (s + 1)) (s + 1) fixedDoneN} := by
      rw [hn]
      show generate_fixed enumEnv _ (s + 1) fixedPend fixedNullSpec = _
      unfold generate_fixed setNode
      rfl
    rw [step_handler_done enumEnv (ES G (s + 1) tr) (s + 1) (stackDown s ++ [0]) fixedNullSpec
      _ rfl (by rfl) (by rw [hn]; rfl) rfl
      (by rw [hn]; show ¬ (20 : Nat) ≤ 1; omega) h6
      (by dsimp only; rw [Function.update_same]; rfl)]
    show ({ES G (s + 1) tr with stack := stackDown s ++ [0], result := none, trace := (s + 1) :: tr, nodes := Function.update (enumArena G (s + 1)) (s + 1) fixedDoneN} : Conf) = ES G s ((s + 1) :: tr)
    unfold ES
    dsimp only
    congr 1
    · exact enumArena_pop_even G s hs hpar
    · rw [show G - (s + 1 + 1) / 2 = G - (s + 1) / 2 by omega]

theorem dictInsert_append (es : List (JVal × JVal)) (kv : JVal × JVal)
    (h : ∀ e ∈ es, JVal.beq e.1 kv.1 = false) : dictInsert es kv = es ++ [kv] := by
  induction es with
  | nil => rfl
  | cons e rest ih =>
    obtain ⟨k, v⟩ := e
    show dictInsert ((k, v) :: rest) kv = _
    rw [dictInsert]
    rw [if_neg (by rw [h (k, v) (by simp)]; simp)]
    rw [ih (fun e he => h e (by simp [he]))]
    rfl

theorem enumKeyStr_ne {a b : Nat} (hne : a ≠ b) :
    JVal.beq (JVal.str (enumKey a)) (JVal.str (enumKey b)) = false := by
  show (enumKey a == enumKey b) = false
  rw [beq_eq_false_iff_ne]
  intro hc
  exact hne (enumKey_inj hc)

theorem entriesAux (G : Nat) : ∀ m j0, j0 + m = G →
    List.foldl (fun acc kv =>
      if (enumArena G 0 kv.1).state = NState.DONE ∧ (enumArena G 0 kv.2).state = NState.DONE then
        dictInsert acc (getJVal (enumArena G 0 kv.1).value, getJVal (enumArena G 0 kv.2).value)
      else acc)
      ((List.range j0).map (fun j => (JVal.str (enumKey (G - 1 - j)), JVal.null)))
      (repPairs (2 * j0 + 1) m)
    = eobjList G := by
  intro m
  induction m with
  | zero =>
    intro j0 h
    have hj : j0 = G := by omega
    subst hj
    rfl
  | succ m ih =>
    intro j0 h
    have hj : j0 < G := by omega
    have ha : enumArena G 0 (2 * j0 + 1) = enumDoneN (G - 1 - (2 * j0 + 1) / 2) := by
      unfold enumArena
      rw [if_neg (by omega : ¬ 2 * j0 + 1 = 0), if_neg (by omega : ¬ 2 * j0 + 1 ≤ 0),
        if_pos (by omega : 2 * j0 + 1 ≤ 2 * G), if_pos (by omega : (2 * j0 + 1) % 2 = 1)]
    have hb : enumArena G 0 (2 * j0 + 2) = fixedDoneN := by
      unfold enumArena
      rw [if_neg (by omega : ¬ 2 * j0 + 2 = 0), if_neg (by omega : ¬ 2 * j0 + 2 ≤ 0),
        if_pos (by omega : 2 * j0 + 2 ≤ 2 * G), if_neg (by omega : ¬ (2 * j0 + 2) % 2 = 1)]
    show List.foldl _ _ ((2 * j0 + 1, 2 * j0 + 2) :: repPairs (2 * j0 + 1 + 2) m) = _
    rw [List.foldl_cons]
    have hstep : (if (enumArena G 0 (2 * j0 + 1)).state = NState.DONE ∧ (enumArena G 0 (2 * j0 + 2)).state = NState.DONE then dictInsert ((List.range j0).map (fun j => (JVal.str (enumKey (G - 1 - j)), JVal.null))) (getJVal (enumArena G 0 (2 * j0 + 1)).value, getJVal (enumArena G 0 (2 * j0 + 2)).value) else ((List.range j0).map (fun j => (JVal.str (enumKey (G - 1 - j)), JVal.null)))) =
        (List.range (j0 + 1)).map (fun j => (JVal.str (enumKey (G - 1 - j)), JVal.null)) := by
      rw [ha, hb]
      rw [if_pos ⟨rfl, rfl⟩]
      have hnotin : ∀ e ∈ (List.range j0).map
          (fun j => (JVal.str (enumKey (G - 1 - j)), JVal.null)),
          JVal.beq e.1 (JVal.str (enumKey (G - 1 - (2 * j0 + 1) / 2))) = false := by
        intro e he
        simp only [List.mem_map, List.mem_range] at he
        obtain ⟨j, hjlt, rfl⟩ := he
        exact enumKeyStr_ne (by omega)
      rw [show (getJVal (enumDoneN (G - 1 - (2 * j0 + 1) / 2)).value,
          getJVal fixedDoneN.value) =
          ((JVal.str (enumKey (G - 1 - (2 * j0 + 1) / 2))), JVal.null) from rfl]
      rw [dictInsert_append _ _ hnotin]
      rw [List.range_succ, List.map_append]
      rw [show (2 * j0 + 1) / 2 = j0 by omega]
      rfl
    rw [hstep]
    have h2 : 2 * j0 + 1 + 2 = 2 * (j0 + 1) + 1 := by omega
    rw [h2]
    exact ih (j0 + 1) (by omega)

theorem C8_rebuild (G : Nat) (tr : List Nat) :
    step enumEnv (ES G 0 tr) = FS G (0 :: tr) := by
  have hn : (ES G 0 tr).nodes 0 = rootTBNode G := rfl
  have h6 : dispatch enumEnv {ES G 0 tr with stack := [], result := none, trace := 0 :: tr} 0 ((ES G 0 tr).nodes 0) (enumRecSpec G) =
      .ok (setNode {ES G 0 tr with stack := [], result := none, trace := 0 :: tr} 0 {rootTBNode G with state := .DONE, value := .j (.obj (eobjList G))}) := by
    rw [hn]
    show generate_record enumEnv _ 0 (rootTBNode G) (enumRecSpec G) = _
    unfold generate_record
    dsimp only [rootTBNode, ES]
    have he := entriesAux G G 0 (by omega)
    norm_num at he
    rw [he]
  rw [step_handler_done enumEnv (ES G 0 tr) 0 [] (enumRecSpec G)
    _ rfl rfl (by rw [hn]; rfl) rfl
    (by rw [hn]; show ¬ (20 : Nat) ≤ 0; omega) h6
    (by dsimp only [setNode]; rw [Function.update_same])]
  show setNode ({ES G 0 tr with stack := [], result := none, trace := 0 :: tr} : Conf) 0 _ = FS G (0 :: tr)
  unfold setNode ES FS
  dsimp only
  rfl

theorem C8_finish (G : Nat) (tr : List Nat) :
    step enumEnv (FS G tr) = {FS G tr with result := some (.ok (.obj (eobjList G)))} := by
  rw [step_empty _ _ rfl rfl]
  have h0 : (FS G tr).nodes 0 = { spec := some (enumRecSpec G), state := .DONE, value := .j (.obj (eobjList G)), sons := repTbd 1 G, depth := 0, scope := none } := by
    show Function.update (enumArena G 0) 0 { spec := some (enumRecSpec G), state := .DONE, value := .j (.obj (eobjList G)), sons := repTbd 1 G, depth := 0, scope := none } 0 = { spec := some (enumRecSpec G), state := .DONE, value := .j (.obj (eobjList G)), sons := repTbd 1 G, depth := 0, scope := none }
    rw [Function.update_same]
  rw [h0]
  rfl

theorem C8_down (G : Nat) : ∀ s tr, s ≤ 2 * G →
    ∃ tr2, runN enumEnv s (ES G s tr) = ES G 0 tr2 := by
  intro s
  induction s with
  | zero => exact fun tr _ => ⟨tr, rfl⟩
  | succ s ih =>
    intro tr h
    rw [runN_succ_front, ES_step G s (by omega) tr]
    exact ih ((s + 1) :: tr) (by omega)

theorem C8_run (G : Nat) (hG : 1 ≤ G) :
    generateResult enumEnv (enumRecSpec G) (2 * G + 3) =
      some (.ok (.obj (eobjList G))) := by
  show (runN enumEnv (2 * G + 3) (initConf (enumRecSpec G))).result = _
  rw [show 2 * G + 3 = (1 + 2 * G) + 1 + 1 by omega]
  rw [runN_add enumEnv ((1 + 2 * G) + 1) 1]
  rw [runN_add enumEnv (1 + 2 * G) 1]
  rw [runN_add enumEnv 1 (2 * G)]
  rw [show runN enumEnv 1 (initConf (enumRecSpec G)) = ES G (2 * G) [0] from C8_expandRoot G hG]
  obtain ⟨tr2, h2⟩ := C8_down G (2 * G) [0] le_rfl
  rw [h2]
  rw [show runN enumEnv 1 (ES G 0 tr2) = FS G (0 :: tr2) from C8_rebuild G tr2]
  rw [show runN enumEnv 1 (FS G (0 :: tr2)) = _ from C8_finish G (0 :: tr2)]

theorem range_reverse_sub (G : Nat) :
    (List.range G).reverse = (List.range G).map (fun j => G - 1 - j) := by
  rw [List.range_eq_range', List.reverse_range', ← List.range_eq_range']
  apply List.map_congr_left
  intro j hj
  omega

/-- C8: within one record scope, a string/enum spec with pattern
`"key_%04d"` repeated `G` times draws the scope counter values
`0, …, G-1` (each formatted by `%`-style zero padding into the pattern),
so the resulting object holds exactly `G` distinct keys
`key_0000 … key_{G-1:04d}` with no gaps or repeats; the engine pops the
children in reverse allocation order, so the object lists them descending. -/
theorem C8_enum_counter_keys (G : Nat) (hG : 1 ≤ G) :
    generateResult enumEnv (enumRecSpec G) (2 * G + 3) =
      some (.ok (.obj (eobjList G))) ∧
    (eobjList G).map Prod.fst =
      (List.range G).reverse.map (fun m => JVal.str (enumKey m)) ∧
    ((eobjList G).map Prod.fst).Nodup ∧
    (∀ m : Nat, pyMod "key_%04d" m = .ok (enumKey m)) := by
  refine ⟨C8_run G hG, ?_, ?_, pyMod_key⟩
  · rw [range_reverse_sub, List.map_map]
    unfold eobjList
    rw [List.map_map]
    rfl
  · unfold eobjList
    rw [List.map_map]
    refine List.Nodup.map_on ?_ (List.nodup_range G)
    intro x hx y hy hf
    simp only [List.mem_range] at hx hy
    simp only [Function.comp] at hf
    have := enumKey_inj (JVal.str.inj hf)
    omega

/-- Witness for C8 at `G = 3`: keys `key_0002`, `key_0001`, `key_0000`. -/
theorem C8_enum_counter_keys_witness :
    1 ≤ 3 ∧
    (generateResult enumEnv (enumRecSpec 3) 9 =
      some (.ok (.obj (eobjList 3))) ∧
    (eobjList 3).map Prod.fst =
      (List.range 3).reverse.map (fun m => JVal.str (enumKey m)) ∧
    ((eobjList 3).map Prod.fst).Nodup ∧
    (∀ m : Nat, pyMod "key_%04d" m = .ok (enumKey m))) :=
  ⟨by decide, C8_enum_counter_keys 3 (by decide)⟩

/-! ### The per-node state machine -/

/-- The forward edges of the spec's state machine:
`DELAYED → {TO_BUILD | DONE | TRUNCATED}` and `TO_BUILD → DONE`
(staying put is allowed; nothing leaves a terminal state). -/
def stepsTo (a b : NState) : Prop :=
  a = b ∨ a = .DELAYED ∨ (a = .TO_BUILD ∧ b = .DONE)

theorem stepsTo_refl (a : NState) : stepsTo a a := Or.inl rfl

theorem stepsTo_delayed (b : NState) : stepsTo .DELAYED b := Or.inr (Or.inl rfl)

theorem stepsTo_done {a : NState} (h : a = .DELAYED ∨ a = .TO_BUILD) :
    stepsTo a .DONE := by
  rcases h with h | h
  · exact h ▸ stepsTo_delayed .DONE
  · exact Or.inr (Or.inr ⟨h, rfl⟩)

/-- What the engine knows about every `TO_BUILD` node: its spec is fixed,
reference-free, routed to the record or array handler, and its depth
already passed the effective max-depth check. -/
def TBgood (env : Env) (nd : Node) : Prop :=
  ∃ sp, nd.spec = some sp ∧ sp.load_ref = none ∧
    nd.depth < effMaxDepth env sp ∧
    (aliasType sp.type? = some "record" ∨ aliasType sp.type? = some "array") ∧
    sp.method? = none

/-- Post-condition of a successful handler call on node `i`: the arena
grows only at fresh slots, the stack is untouched, node `i` moves along a
state-machine edge, and a `TO_BUILD` result carries fresh, distinct,
DELAYED children. -/
def DOKok (sp : Spec) (c : Conf) (i : Nat) (c2 : Conf) : Prop :=
  c.next ≤ c2.next ∧
  c2.stack = c.stack ∧
  (∀ j, ¬ j = i → j < c.next → c2.nodes j = c.nodes j) ∧
  (∀ j, c2.next ≤ j → c2.nodes j = c.nodes j) ∧
  stepsTo (c.nodes i).state (c2.nodes i).state ∧
  (∀ j, ¬ j = i → c.next ≤ j → j < c2.next →
    (c2.nodes j).state = .DELAYED ∨ (c2.nodes j).state = .DONE) ∧
  ((c2.nodes i).state = .TO_BUILD →
    (c2.nodes i).spec = some sp ∧ (c2.nodes i).depth = (c.nodes i).depth ∧
    (aliasType sp.type? = some "record" ∨ aliasType sp.type? = some "array") ∧
    sp.method? = none ∧
    (c2.nodes i).sons.Nodup ∧
    (∀ j ∈ (c2.nodes i).sons, c.next ≤ j ∧ j < c2.next ∧ (c2.nodes j).state = .DELAYED))

/-- The reachability invariant of `generate`'s work stack: stacked nodes
are pending (DELAYED, or TO_BUILD with its guarantees), arena slots past
the frontier are untouched defaults, stack entries are allocated and
distinct. -/
def Inv9 (env : Env) (c : Conf) : Prop :=
  (∀ i ∈ c.stack, (c.nodes i).state = .DELAYED ∨
    ((c.nodes i).state = .TO_BUILD ∧ TBgood env (c.nodes i))) ∧
  (∀ i, c.next ≤ i → c.nodes i = defaultNode) ∧
  (∀ i ∈ c.stack, i < c.next) ∧
  c.stack.Nodup

/-- A simple-function callback leaves everything but node `i` (and the
draw cursor) alone and lands `i` on DONE. -/
theorem simpleCallback_DOK (compute : Oracle → Nat → Params → Except PyErr (JVal × Nat))
    (env : Env) (c : Conf) (i : Nat) (sp : Spec) (c2 : Conf)
    (h : simpleCallback compute env c i (c.nodes i) sp = .ok c2)
    (hi : i < c.next)
    (hst : (c.nodes i).state = .DELAYED ∨ (c.nodes i).state = .TO_BUILD) :
    DOKok sp c i c2 := by
  unfold simpleCallback at h
  rcases hc : compute env.o c.k sp.params with e | rk
  · rw [hc] at h
    simp [Bind.bind, Except.bind] at h
  · rw [hc] at h
    simp only [Bind.bind, Except.bind] at h
    injection h with h
    subst h
    unfold setNode
    refine ⟨le_refl _, rfl, ?_, ?_, ?_, ?_, ?_⟩
    · intro j hj _
      exact Function.update_noteq hj _ _
    · intro j hge
      replace hge : c.next ≤ j := hge
      by_cases hj : j = i
      · subst hj
        omega
      · exact Function.update_noteq hj _ _
    · show stepsTo _ (Function.update c.nodes i _ i).state
      rw [Function.update_same]
      exact stepsTo_done hst
    · intro j _ h1 h2
      replace h2 : j < c.next := h2
      omega
    · show (Function.update c.nodes i _ i).state = .TO_BUILD → _
      rw [Function.update_same]
      intro hcon
      exact absurd hcon (by simp)

/-- Any handler that just lands node `i` on a DONE node satisfies the
post-condition (the ambient conf may have changed draw cursor or scopes). -/
theorem setNodeDone_DOK (sp : Spec) (c c1 : Conf) (i : Nat) (nd : Node)
    (hn : c1.nodes = c.nodes) (hx : c1.next = c.next) (hs : c1.stack = c.stack)
    (hnd : nd.state = .DONE) (hi : i < c.next)
    (hst : (c.nodes i).state = .DELAYED ∨ (c.nodes i).state = .TO_BUILD) :
    DOKok sp c i (setNode c1 i nd) := by
  unfold setNode
  refine ⟨by rw [hx], by rw [hs], ?_, ?_, ?_, ?_, ?_⟩
  · intro j hj _
    show Function.update c1.nodes i nd j = c.nodes j
    rw [Function.update_noteq hj, hn]
  · intro j hge
    replace hge : c1.next ≤ j := hge
    rw [hx] at hge
    show Function.update c1.nodes i nd j = c.nodes j
    rw [Function.update_noteq (by omega), hn]
  · show stepsTo _ (Function.update c1.nodes i nd i).state
    rw [Function.update_same, hnd]
    exact stepsTo_done hst
  · intro j _ h1 h2
    replace h2 : j < c1.next := h2
    rw [hx] at h2
    omega
  · show (Function.update c1.nodes i nd i).state = .TO_BUILD → _
    rw [Function.update_same, hnd]
    intro hcon
    exact absurd hcon (by simp)

theorem generate_fixed_DOK (env : Env) (c : Conf) (i : Nat) (sp : Spec) (c2 : Conf)
    (h : generate_fixed env c i (c.nodes i) sp = .ok c2)
    (hi : i < c.next)
    (hst : (c.nodes i).state = .DELAYED ∨ (c.nodes i).state = .TO_BUILD) :
    DOKok sp c i c2 := by
  unfold generate_fixed at h
  injection h with h
  subst h
  exact setNodeDone_DOK sp c c i _ rfl rfl rfl rfl hi hst

theorem null_callback_DOK (env : Env) (c : Conf) (i : Nat) (sp : Spec) (c2 : Conf)
    (h : null_callback env c i (c.nodes i) sp = .ok c2)
    (hi : i < c.next)
    (hst : (c.nodes i).state = .DELAYED ∨ (c.nodes i).state = .TO_BUILD) :
    DOKok sp c i c2 := by
  unfold null_callback at h
  injection h with h
  subst h
  exact setNodeDone_DOK sp c c i _ rfl rfl rfl rfl hi hst

theorem generate_string_enum_DOK (env : Env) (c : Conf) (i : Nat) (sp : Spec) (c2 : Conf)
    (h : generate_string_enum env c i (c.nodes i) sp = .ok c2)
    (hi : i < c.next)
    (hst : (c.nodes i).state = .DELAYED ∨ (c.nodes i).state = .TO_BUILD) :
    DOKok sp c i c2 := by
  unfold generate_string_enum at h
  rcases hsc : (c.nodes i).scope with _ | sid
  · rw [hsc] at h
    dsimp only at h
    rcases hm : pyMod (sp.pattern?.getD "%d") 0 with e | res
    · rw [hm] at h
      simp [Bind.bind, Except.bind] at h
    · rw [hm] at h
      simp only [Bind.bind, Except.bind] at h
      injection h with h
      subst h
      exact setNodeDone_DOK sp c c i _ rfl rfl rfl rfl hi hst
  · rw [hsc] at h
    dsimp only at h
    rcases hm : pyMod (sp.pattern?.getD "%d") (countOf (c.scopes sid) (sp.pattern?.getD "%d"))
        with e | res
    · rw [hm] at h
      simp [Bind.bind, Except.bind] at h
    · rw [hm] at h
      simp only [Bind.bind, Except.bind] at h
      injection h with h
      subst h
      exact setNodeDone_DOK sp c _ i _ rfl rfl rfl rfl hi hst

theorem choiceWalk_DOK (sp : Spec) (c c1 : Conf) (i : Nat) (total : Nat)
    (hn : c1.nodes = c.nodes) (hx : c1.next = c.next) (hs : c1.stack = c.stack)
    (hi : i < c.next)
    (hst : (c.nodes i).state = .DELAYED) :
    ∀ (opts : List COpt) (r : Rat),
      DOKok sp c i (choiceWalk c1 i (c.nodes i) total r opts) := by
  intro opts
  induction opts with
  | nil =>
    intro r
    show DOKok sp c i (setNode c1 i _)
    exact setNodeDone_DOK sp c c1 i _ hn hx hs rfl hi (Or.inl hst)
  | cons o rest ih =>
    intro r
    show DOKok sp c i
      (if r < o.1.getD (100 / (total : Rat)) then
        setNode c1 i {(c.nodes i) with spec := o.2}
      else choiceWalk c1 i (c.nodes i) total (r - o.1.getD (100 / (total : Rat))) rest)
    by_cases hr : r < o.1.getD (100 / (total : Rat))
    · rw [if_pos hr]
      unfold setNode
      refine ⟨by rw [hx], by rw [hs], ?_, ?_, ?_, ?_, ?_⟩
      · intro j hj _
        show Function.update c1.nodes i _ j = c.nodes j
        rw [Function.update_noteq hj, hn]
      · intro j hge
        replace hge : c1.next ≤ j := hge
        rw [hx] at hge
        show Function.update c1.nodes i _ j = c.nodes j
        rw [Function.update_noteq (by omega), hn]
      · show stepsTo _ (Function.update c1.nodes i _ i).state
        rw [Function.update_same]
        exact stepsTo_refl _
      · intro j _ h1 h2
        replace h2 : j < c1.next := h2
        rw [hx] at h2
        omega
      · show (Function.update c1.nodes i _ i).state = .TO_BUILD → _
        rw [Function.update_same]
        intro hcon
        rw [hst] at hcon
        exact absurd hcon (by simp)
    · rw [if_neg hr]
      exact ih _

theorem generate_choice_DOK (env : Env) (c : Conf) (i : Nat) (sp : Spec) (c2 : Conf)
    (h : generate_choice env c i (c.nodes i) sp = .ok c2)
    (hi : i < c.next)
    (hst : (c.nodes i).state = .DELAYED) :
    DOKok sp c i c2 := by
  unfold generate_choice at h
  injection h with h
  subst h
  exact choiceWalk_DOK sp c {c with k := c.k + 1} i sp.options.length rfl rfl rfl hi hst
    sp.options (env.o.rat c.k * 100)

/-- Post-condition of the allocation loops (`recReps`, `recKeys`,
`allocKids`): fresh slots only, stack untouched, pending-children list
extended by fresh distinct DELAYED slots. -/
def AllocOK (f : Nat → Node) (ν : Nat) (stk : List Nat) (c2 : Conf)
    (tbd tbd2 : List Nat) : Prop :=
  ν ≤ c2.next ∧
  c2.stack = stk ∧
  (∀ j, j < ν → c2.nodes j = f j) ∧
  (∀ j, c2.next ≤ j → c2.nodes j = f j) ∧
  (∀ j, ν ≤ j → j < c2.next →
    (c2.nodes j).state = .DELAYED ∨ (c2.nodes j).state = .DONE) ∧
  (∃ dl, tbd2 = tbd ++ dl ∧ dl.Nodup ∧
    (∀ j ∈ dl, ν ≤ j ∧ j < c2.next ∧ (c2.nodes j).state = .DELAYED))

theorem AllocOK_id (f : Nat → Node) (ν : Nat) (stk : List Nat) (c2 : Conf)
    (tbd : List Nat) (hn : c2.nodes = f) (hx : c2.next = ν) (hs : c2.stack = stk) :
    AllocOK f ν stk c2 tbd tbd := by
  refine ⟨by omega, hs, ?_, ?_, ?_, ⟨[], by simp, List.nodup_nil, by simp⟩⟩
  · intro j _
    rw [hn]
  · intro j _
    rw [hn]
  · intro j h1 h2
    rw [hx] at h2
    omega

theorem AllocOK_trans (f : Nat → Node) (ν : Nat) (stk : List Nat)
    (cB : Conf) (tbd tbd2 : List Nat) (cC : Conf) (tbd3 : List Nat)
    (h1 : AllocOK f ν stk cB tbd tbd2)
    (h2 : AllocOK cB.nodes cB.next cB.stack cC tbd2 tbd3) :
    AllocOK f ν stk cC tbd tbd3 := by
  obtain ⟨a1, a2, a3, a4, a5, dl1, e1, n1, m1⟩ := h1
  obtain ⟨b1, b2, b3, b4, b5, dl2, e2, n2, m2⟩ := h2
  refine ⟨by omega, by rw [b2, a2], ?_, ?_, ?_, ?_⟩
  · intro j hj
    rw [b3 j (by omega), a3 j hj]
  · intro j hj
    rw [b4 j hj, a4 j (by omega)]
  · intro j hj1 hj2
    by_cases hmid : j < cB.next
    · rw [b3 j hmid]
      exact a5 j hj1 hmid
    · exact b5 j (by omega) hj2
  · refine ⟨dl1 ++ dl2, by rw [e2, e1, List.append_assoc], ?_, ?_⟩
    · rw [List.nodup_append]
      refine ⟨n1, n2, ?_⟩
      intro x hx1 hx2
      have q1 := m1 x hx1
      have q2 := m2 x hx2
      omega
    · intro j hj
      rcases List.mem_append.mp hj with hj | hj
      · have q := m1 j hj
        refine ⟨q.1, by omega, ?_⟩
        rw [b3 j q.2.1]
        exact q.2.2
      · have q := m2 j hj
        exact ⟨by omega, q.2.1, q.2.2⟩

theorem recReps_AllocOK (o : Oracle) (parent : Node) (sid : Nat) (key : RKey) :
    ∀ (m : Nat) (c : Conf) (kt : List String) (pairs : List (Nat × Nat)) (tbd : List Nat)
      (c2 : Conf) (pairs2 : List (Nat × Nat)) (tbd2 : List Nat),
      recReps o parent sid key m c kt pairs tbd = .ok (c2, pairs2, tbd2) →
      AllocOK c.nodes c.next c.stack c2 tbd tbd2 := by
  intro m
  induction m with
  | zero =>
    intro c kt pairs tbd c2 pairs2 tbd2 h
    unfold recReps at h
    injection h with h
    injection h with hA hB
    injection hB with hB hC
    subst hA
    subst hC
    exact AllocOK_id _ _ _ _ _ rfl rfl rfl
  | succ m ih =>
    intro c kt pairs tbd c2 pairs2 tbd2 h
    unfold recReps at h
    dsimp only at h
    split at h
    · -- present: match on the name
      split at h
      · exact absurd h (by simp)
      · -- literal name: doneNode then newNode
        rename_i v hv
        have hres := ih _ _ _ _ _ _ _ h
        refine AllocOK_trans c.nodes c.next c.stack
          {c with nodes := Function.update (Function.update c.nodes c.next (doneNode parent v)) (c.next + 1) (newNode (key.value?.getD emptySpec) parent (some sid)), next := c.next + 1 + 1, k := (recPresence o c.k kt (key.chance?.getD (.cnum 100))).2}
          tbd (tbd ++ [c.next + 1]) c2 tbd2 ?_ ?_
        · unfold AllocOK
          dsimp only
          refine ⟨by omega, rfl, ?_, ?_, ?_, ?_⟩
          · intro j hj
            rw [Function.update_noteq (by omega), Function.update_noteq (by omega)]
          · intro j hj
            rw [Function.update_noteq (by omega), Function.update_noteq (by omega)]
          · intro j hj1 hj2
            by_cases hja : j = c.next
            · subst hja
              right
              rw [Function.update_noteq (by omega), Function.update_same]
              rfl
            · have hjb : j = c.next + 1 := by omega
              subst hjb
              left
              rw [Function.update_same]
              rfl
          · refine ⟨[c.next + 1], rfl, by simp, ?_⟩
            intro j hj
            simp only [List.mem_singleton] at hj
            refine ⟨by omega, by omega, ?_⟩
            rw [hj, Function.update_same]
            rfl
        · exact hres
      · -- spec-valued name: two newNodes
        rename_i s hs
        have hres := ih _ _ _ _ _ _ _ h
        refine AllocOK_trans c.nodes c.next c.stack
          {c with nodes := Function.update (Function.update c.nodes c.next (newNode s parent (some sid))) (c.next + 1) (newNode (key.value?.getD emptySpec) parent (some sid)), next := c.next + 1 + 1, k := (recPresence o c.k kt (key.chance?.getD (.cnum 100))).2}
          tbd (tbd ++ [c.next, c.next + 1]) c2 tbd2 ?_ ?_
        · unfold AllocOK
          dsimp only
          refine ⟨by omega, rfl, ?_, ?_, ?_, ?_⟩
          · intro j hj
            rw [Function.update_noteq (by omega), Function.update_noteq (by omega)]
          · intro j hj
            rw [Function.update_noteq (by omega), Function.update_noteq (by omega)]
          · intro j hj1 hj2
            by_cases hja : j = c.next
            · subst hja
              left
              rw [Function.update_noteq (by omega), Function.update_same]
              rfl
            · have hjb : j = c.next + 1 := by omega
              subst hjb
              left
              rw [Function.update_same]
              rfl
          · refine ⟨[c.next, c.next + 1], rfl, by simp, ?_⟩
            intro j hj
            simp only [List.mem_cons, List.mem_singleton, List.not_mem_nil, or_false] at hj
            rcases hj with hj | hj
            · refine ⟨by omega, by omega, ?_⟩
              rw [hj, Function.update_noteq (by omega), Function.update_same]
              rfl
            · refine ⟨by omega, by omega, ?_⟩
              rw [hj, Function.update_same]
              rfl
        · exact hres
    · -- absent: only the draw cursor moved
      exact ih {c with k := (recPresence o c.k kt (key.chance?.getD (.cnum 100))).2}
        kt pairs tbd c2 pairs2 tbd2 h

theorem recKeys_AllocOK (o : Oracle) (parent : Node) (sid : Nat) :
    ∀ (ks : List RKey) (c : Conf) (kt : List String) (pairs : List (Nat × Nat))
      (tbd : List Nat) (c2 : Conf) (pairs2 : List (Nat × Nat)) (tbd2 : List Nat),
      recKeys o parent sid ks c kt pairs tbd = .ok (c2, pairs2, tbd2) →
      AllocOK c.nodes c.next c.stack c2 tbd tbd2 := by
  intro ks
  induction ks with
  | nil =>
    intro c kt pairs tbd c2 pairs2 tbd2 h
    unfold recKeys at h
    injection h with h
    injection h with hA hB
    injection hB with hB hC
    subst hA
    subst hC
    exact AllocOK_id _ _ _ _ _ rfl rfl rfl
  | cons key rest ih =>
    intro c kt pairs tbd c2 pairs2 tbd2 h
    unfold recKeys at h
    simp only [Bind.bind, Except.bind] at h
    rcases hr : recReps o parent sid key ((key.repeat?.getD 1).toNat) c kt pairs tbd
        with e | r
    · rw [hr] at h
      simp at h
    · rw [hr] at h
      dsimp only at h
      obtain ⟨rc, rp, rt⟩ := r
      have h1 := recReps_AllocOK o parent sid key _ c kt pairs tbd rc rp rt hr
      have h2 := ih rc kt rp rt c2 pairs2 tbd2 h
      exact AllocOK_trans c.nodes c.next c.stack rc tbd rt c2 tbd2 h1 h2

theorem allocKids_AllocOK (tmpl : Node) (htmpl : tmpl.state = .DELAYED) :
    ∀ (m : Nat) (c : Conf),
      AllocOK c.nodes c.next c.stack (allocKids c tmpl m).2 [] (allocKids c tmpl m).1 := by
  intro m
  induction m with
  | zero =>
    intro c
    exact AllocOK_id _ _ _ _ _ rfl rfl rfl
  | succ m ih =>
    intro c
    show AllocOK c.nodes c.next c.stack
      (allocKids {c with nodes := Function.update c.nodes c.next tmpl, next := c.next + 1} tmpl m).2
      [] (c.next :: (allocKids {c with nodes := Function.update c.nodes c.next tmpl, next := c.next + 1} tmpl m).1)
    have hres := ih {c with nodes := Function.update c.nodes c.next tmpl, next := c.next + 1}
    obtain ⟨a1, a2, a3, a4, a5, dl, e1, n1, m1⟩ := hres
    have a1x : c.next + 1 ≤ (allocKids {c with nodes := Function.update c.nodes c.next tmpl, next := c.next + 1} tmpl m).2.next := a1
    have m1x : ∀ j ∈ dl, c.next + 1 ≤ j ∧ j < (allocKids {c with nodes := Function.update c.nodes c.next tmpl, next := c.next + 1} tmpl m).2.next ∧ ((allocKids {c with nodes := Function.update c.nodes c.next tmpl, next := c.next + 1} tmpl m).2.nodes j).state = .DELAYED := m1
    refine ⟨by omega, by rw [a2], ?_, ?_, ?_, ?_⟩
    · intro j hj
      rw [a3 j (show j < c.next + 1 from by omega)]
      show Function.update c.nodes c.next tmpl j = c.nodes j
      rw [Function.update_noteq (by omega)]
    · intro j hj
      rw [a4 j hj]
      by_cases hja : j = c.next
      · omega
      · show Function.update c.nodes c.next tmpl j = c.nodes j
        rw [Function.update_noteq (by omega)]
    · intro j hj1 hj2
      by_cases hja : j = c.next
      · left
        rw [a3 j (show j < c.next + 1 from by omega), hja]
        show (Function.update c.nodes c.next tmpl c.next).state = _
        rw [Function.update_same]
        exact htmpl
      · exact a5 j (show c.next + 1 ≤ j from by omega) hj2
    · refine ⟨c.next :: dl, by rw [e1]; rfl, ?_, ?_⟩
      · rw [List.nodup_cons]
        refine ⟨?_, n1⟩
        intro hc
        have := m1x _ hc
        omega
      · intro j hj
        rcases List.mem_cons.mp hj with hj | hj
        · refine ⟨by omega, by omega, ?_⟩
          rw [hj, a3 c.next (show c.next < c.next + 1 from by omega)]
          show (Function.update c.nodes c.next tmpl c.next).state = _
          rw [Function.update_same]
          exact htmpl
        · have := m1x _ hj
          exact ⟨by omega, this.2.1, this.2.2⟩

/-- Landing node `i` on DONE after an allocation phase. -/
theorem alloc_setDone_DOK (sp : Spec) (c cA : Conf) (i : Nat) (nd : Node)
    (tbd0 dl : List Nat) (hi : i < c.next)
    (hall : AllocOK c.nodes c.next c.stack cA tbd0 dl)
    (hnd : nd.state = .DONE)
    (hst : (c.nodes i).state = .DELAYED ∨ (c.nodes i).state = .TO_BUILD) :
    DOKok sp c i (setNode cA i nd) := by
  obtain ⟨a1, a2, a3, a4, a5, _⟩ := hall
  unfold setNode
  refine ⟨a1, a2, ?_, ?_, ?_, ?_, ?_⟩
  · intro j hj hjlt
    show Function.update cA.nodes i nd j = c.nodes j
    rw [Function.update_noteq hj, a3 j hjlt]
  · intro j hge
    replace hge : cA.next ≤ j := hge
    show Function.update cA.nodes i nd j = c.nodes j
    rw [Function.update_noteq (by omega), a4 j hge]
  · show stepsTo _ (Function.update cA.nodes i nd i).state
    rw [Function.update_same, hnd]
    exact stepsTo_done hst
  · intro j hj h1 h2
    replace h2 : j < cA.next := h2
    show (Function.update cA.nodes i nd j).state = _ ∨ (Function.update cA.nodes i nd j).state = _
    rw [Function.update_noteq hj]
    exact a5 j h1 h2
  · show (Function.update cA.nodes i nd i).state = .TO_BUILD → _
    rw [Function.update_same, hnd]
    intro hcon
    exact absurd hcon (by simp)

/-- Landing node `i` on TO_BUILD whose children are the freshly allocated
pending slots. -/
theorem alloc_setTB_DOK (sp : Spec) (c cA : Conf) (i : Nat) (nd : Node)
    (dl : List Nat) (hi : i < c.next)
    (hall : AllocOK c.nodes c.next c.stack cA [] dl)
    (hnd_spec : nd.spec = some sp) (hnd_depth : nd.depth = (c.nodes i).depth)
    (hnd_sons : nd.sons = dl) (hnd_state : nd.state = .TO_BUILD)
    (hst : (c.nodes i).state = .DELAYED)
    (hrt : aliasType sp.type? = some "record" ∨ aliasType sp.type? = some "array")
    (hm : sp.method? = none) :
    DOKok sp c i (setNode cA i nd) := by
  obtain ⟨a1, a2, a3, a4, a5, dl2, e2, n2, m2⟩ := hall
  rw [List.nil_append] at e2
  subst e2
  unfold setNode
  refine ⟨a1, a2, ?_, ?_, ?_, ?_, ?_⟩
  · intro j hj hjlt
    show Function.update cA.nodes i nd j = c.nodes j
    rw [Function.update_noteq hj, a3 j hjlt]
  · intro j hge
    replace hge : cA.next ≤ j := hge
    show Function.update cA.nodes i nd j = c.nodes j
    rw [Function.update_noteq (by omega), a4 j hge]
  · show stepsTo _ (Function.update cA.nodes i nd i).state
    rw [Function.update_same, hnd_state]
    exact hst ▸ stepsTo_delayed _
  · intro j hj h1 h2
    replace h2 : j < cA.next := h2
    show (Function.update cA.nodes i nd j).state = _ ∨ (Function.update cA.nodes i nd j).state = _
    rw [Function.update_noteq hj]
    exact a5 j h1 h2
  · intro _
    refine ⟨?_, ?_, hrt, hm, ?_, ?_⟩
    · show (Function.update cA.nodes i nd i).spec = some sp
      rw [Function.update_same]
      exact hnd_spec
    · show (Function.update cA.nodes i nd i).depth = _
      rw [Function.update_same]
      exact hnd_depth
    · show (Function.update cA.nodes i nd i).sons.Nodup
      rw [Function.update_same, hnd_sons]
      exact n2
    · intro j hj
      dsimp only at hj
      rw [Function.update_same, hnd_sons] at hj
      have q := m2 j hj
      refine ⟨q.1, q.2.1, ?_⟩
      show (Function.update cA.nodes i nd j).state = _
      rw [Function.update_noteq (by omega)]
      exact q.2.2

theorem generate_record_DOK (env : Env) (c : Conf) (i : Nat) (sp : Spec) (c2 : Conf)
    (h : generate_record env c i (c.nodes i) sp = .ok c2)
    (hi : i < c.next) (hsp : (c.nodes i).spec = some sp)
    (hrt : aliasType sp.type? = some "record") (hm : sp.method? = none) :
    DOKok sp c i c2 := by
  unfold generate_record at h
  split at h
  · -- DELAYED: expansion
    rename_i hstate
    dsimp only at h
    rcases hk : recKeys env.o (c.nodes i) c.nscopes sp.keys
        {c with scopes := Function.update c.scopes c.nscopes [], nscopes := c.nscopes + 1}
        [] [] [] with e | r
    · rw [hk] at h
      simp at h
    · rw [hk] at h
      dsimp only at h
      obtain ⟨cA, pairs, tbd⟩ := r
      have hall := recKeys_AllocOK env.o (c.nodes i) c.nscopes sp.keys
        {c with scopes := Function.update c.scopes c.nscopes [], nscopes := c.nscopes + 1}
        [] [] [] cA pairs tbd hk
      replace hall : AllocOK c.nodes c.next c.stack cA [] tbd := hall
      split at h
      · injection h with h
        subst h
        exact alloc_setDone_DOK sp c cA i _ [] tbd hi hall rfl (Or.inl hstate)
      · injection h with h
        subst h
        exact alloc_setTB_DOK sp c cA i _ tbd hi hall hsp rfl rfl rfl hstate
          (Or.inl hrt) hm
  · -- TO_BUILD: assembly to DONE
    rename_i hstate
    dsimp only at h
    injection h with h
    subst h
    exact alloc_setDone_DOK sp c c i _ [] [] hi (AllocOK_id _ _ _ _ _ rfl rfl rfl) rfl
      (Or.inr hstate)
  · -- terminal states: identity
    injection h with h
    subst h
    refine ⟨le_refl _, rfl, fun j _ _ => rfl, fun j _ => rfl, stepsTo_refl _, ?_, ?_⟩
    · intro j _ h1 h2
      omega
    · rename_i hstate1 hstate2
      intro hcon
      exact absurd hcon hstate2

theorem generate_array_DOK (env : Env) (c : Conf) (i : Nat) (sp : Spec) (c2 : Conf)
    (h : generate_array env c i (c.nodes i) sp = .ok c2)
    (hi : i < c.next) (hsp : (c.nodes i).spec = some sp)
    (hrt : aliasType sp.type? = some "array") (hm : sp.method? = none) :
    DOKok sp c i c2 := by
  unfold generate_array at h
  split at h
  · -- DELAYED: allocate the element children
    rename_i hstate
    dsimp only at h
    rcases hr : randint env.o c.k (sp.min_length?.getD 0)
        (sp.max_length?.getD (sp.min_length?.getD 0 + 4)) with e | lk
    · rw [hr] at h
      simp at h
    · rw [hr] at h
      dsimp only at h
      obtain ⟨len, k1⟩ := lk
      injection h with h
      subst h
      have hall := allocKids_AllocOK
        (newNode (sp.type_elements.getD emptySpec) (c.nodes i) (some c.nscopes)) rfl
        len.toNat
        {c with scopes := Function.update c.scopes c.nscopes [], nscopes := c.nscopes + 1, k := k1}
      replace hall : AllocOK c.nodes c.next c.stack
        (allocKids {c with scopes := Function.update c.scopes c.nscopes [], nscopes := c.nscopes + 1, k := k1} (newNode (sp.type_elements.getD emptySpec) (c.nodes i) (some c.nscopes)) len.toNat).2 []
        (allocKids {c with scopes := Function.update c.scopes c.nscopes [], nscopes := c.nscopes + 1, k := k1} (newNode (sp.type_elements.getD emptySpec) (c.nodes i) (some c.nscopes)) len.toNat).1 := hall
      exact alloc_setTB_DOK sp c _ i _ _ hi hall hsp rfl rfl rfl hstate (Or.inr hrt) hm
  · -- TO_BUILD: assembly to DONE
    rename_i hstate
    dsimp only at h
    injection h with h
    subst h
    exact alloc_setDone_DOK sp c c i _ [] [] hi (AllocOK_id _ _ _ _ _ rfl rfl rfl) rfl
      (Or.inr hstate)
  · -- terminal states: identity
    injection h with h
    subst h
    refine ⟨le_refl _, rfl, fun j _ _ => rfl, fun j _ => rfl, stepsTo_refl _, ?_, ?_⟩
    · intro j _ h1 h2
      omega
    · rename_i hstate1 hstate2
      intro hcon
      exact absurd hcon hstate2

theorem dispatch_DOK (env : Env) (c : Conf) (i : Nat) (sp : Spec) (c2 : Conf)
    (h : dispatch env c i (c.nodes i) sp = .ok c2)
    (hi : i < c.next) (hsp : (c.nodes i).spec = some sp)
    (hst : (c.nodes i).state = .DELAYED ∨
      ((c.nodes i).state = .TO_BUILD ∧ TBgood env (c.nodes i))) :
    DOKok sp c i c2 := by
  have hst2 : (c.nodes i).state = .DELAYED ∨ (c.nodes i).state = .TO_BUILD := by
    rcases hst with h1 | h1
    · exact Or.inl h1
    · exact Or.inr h1.1
  unfold dispatch at h
  split at h
  case _ => exact simpleCallback_DOK _ env c i sp c2 h hi hst2
  case _ => exact simpleCallback_DOK _ env c i sp c2 h hi hst2
  case _ => exact simpleCallback_DOK _ env c i sp c2 h hi hst2
  case _ => exact simpleCallback_DOK _ env c i sp c2 h hi hst2
  case _ => exact generate_fixed_DOK env c i sp c2 h hi hst2
  case _ => exact generate_fixed_DOK env c i sp c2 h hi hst2
  case _ =>
    rename_i heqt heqm
    refine generate_choice_DOK env c i sp c2 h hi ?_
    rcases hst with h1 | h1
    · exact h1
    · obtain ⟨sp2, hsp2, _, _, hrt2, _⟩ := h1.2
      rw [hsp] at hsp2
      injection hsp2 with hsp2
      subst hsp2
      rw [heqt] at hrt2
      rcases hrt2 with h2 | h2 <;> exact absurd h2 (by simp)
  case _ => exact simpleCallback_DOK _ env c i sp c2 h hi hst2
  case _ => exact generate_string_enum_DOK env c i sp c2 h hi hst2
  case _ => exact simpleCallback_DOK _ env c i sp c2 h hi hst2
  case _ => exact simpleCallback_DOK _ env c i sp c2 h hi hst2
  case _ =>
    rename_i heqt heqm
    exact generate_record_DOK env c i sp c2 h hi hsp heqt heqm
  case _ =>
    rename_i heqt heqm
    exact generate_array_DOK env c i sp c2 h hi hsp heqt heqm
  case _ => exact null_callback_DOK env c i sp c2 h hi hst2

theorem pushSons_facts (env : Env) (c : Conf) (sons : List Nat) :
    ∃ L : List Nat, L.Sublist sons ∧
      (pushSons env c sons).stack = L.reverse ++ c.stack ∧
      (pushSons env c sons).nodes = c.nodes ∧
      (pushSons env c sons).next = c.next := by
  unfold pushSons
  rcases env.max_size with _ | N
  · exact ⟨sons, List.Sublist.refl _, rfl, rfl, rfl⟩
  · dsimp only
    by_cases hb : N ≤ c.size + sons.length
    · rw [if_pos hb]
      refine ⟨pySlice sons ((N : Int) - (c.size : Int)), ?_, rfl, rfl, rfl⟩
      unfold pySlice
      split
      · exact List.take_sublist _ _
      · exact List.take_sublist _ _
    · rw [if_neg hb]
      exact ⟨sons, List.Sublist.refl _, rfl, rfl, rfl⟩

set_option maxHeartbeats 1000000 in
theorem step_inv9 (env : Env) (c : Conf) (hinv : Inv9 env c) :
    Inv9 env (step env c) ∧
    (∀ i, stepsTo (c.nodes i).state ((step env c).nodes i).state) ∧
    (∀ i, (c.nodes i).state = .DONE ∨ (c.nodes i).state = .TRUNCATED →
      (step env c).nodes i = c.nodes i) := by
  obtain ⟨ha, hb, hc, he⟩ := hinv
  rcases hr : c.result with _ | r
  swap
  · rw [step_final env c r hr]
    exact ⟨⟨ha, hb, hc, he⟩, fun i => stepsTo_refl _, fun i _ => rfl⟩
  rcases hs : c.stack with _ | ⟨i, rest⟩
  · rw [step_empty env c hr hs]
    exact ⟨⟨ha, hb, hc, he⟩, fun i => stepsTo_refl _, fun i _ => rfl⟩
  have hai := ha i (by rw [hs]; exact List.mem_cons_self i rest)
  have hci : i < c.next := hc i (by rw [hs]; exact List.mem_cons_self i rest)
  have hnd : i ∉ rest ∧ rest.Nodup := by
    rw [hs] at he
    exact List.nodup_cons.mp he
  have harest : ∀ j ∈ rest, (c.nodes j).state = .DELAYED ∨
      ((c.nodes j).state = .TO_BUILD ∧ TBgood env (c.nodes j)) :=
    fun j hj => ha j (by rw [hs]; exact List.mem_cons_of_mem i hj)
  have hcrest : ∀ j ∈ rest, j < c.next :=
    fun j hj => hc j (by rw [hs]; exact List.mem_cons_of_mem i hj)
  have hbst : ∀ j, c.next ≤ j → (c.nodes j).state = .DELAYED := by
    intro j hj
    rw [hb j hj]
    rfl
  rcases hsp : (c.nodes i).spec with _ | sp
  · rw [step_nospec env c i rest hr hs hsp]
    refine ⟨⟨harest, hb, hcrest, hnd.2⟩, fun j => stepsTo_refl _, fun j _ => rfl⟩
  rcases hlr : sp.load_ref with _ | name
  swap
  · -- load_ref substitution: state untouched, node re-pushed
    have hidel : (c.nodes i).state = .DELAYED := by
      rcases hai with h1 | h1
      · exact h1
      · obtain ⟨sp2, hsp2, hlr2, _⟩ := h1.2
        rw [hsp] at hsp2
        injection hsp2 with hsp2
        subst hsp2
        rw [hlr] at hlr2
        exact absurd hlr2 (by simp)
    rw [step_loadref env c i rest sp name hr hs hsp hlr]
    unfold setNode
    refine ⟨⟨?_, ?_, ?_, ?_⟩, ?_, ?_⟩
    · intro j hj
      replace hj : j ∈ i :: rest := hj
      dsimp only
      rcases List.mem_cons.mp hj with hj | hj
      · left
        rw [hj, Function.update_same]
        exact hidel
      · rw [Function.update_noteq (fun hho => hnd.1 (by rw [← hho]; exact hj))]
        exact harest j hj
    · intro j hj
      replace hj : c.next ≤ j := hj
      dsimp only
      rw [Function.update_noteq (by omega)]
      exact hb j hj
    · intro j hj
      replace hj : j ∈ i :: rest := hj
      show j < c.next
      rcases List.mem_cons.mp hj with hj | hj
      · omega
      · exact hcrest j hj
    · show (i :: rest).Nodup
      rw [List.nodup_cons]
      exact hnd
    · intro j
      dsimp only
      by_cases hj : j = i
      · subst hj
        rw [Function.update_same]
        exact stepsTo_refl _
      · rw [Function.update_noteq hj]
        exact stepsTo_refl _
    · intro j hterm
      dsimp only
      rw [Function.update_noteq (fun hho => by rw [hho, hidel] at hterm; rcases hterm with h | h <;> simp at h)]
  by_cases hdep : effMaxDepth env sp ≤ (c.nodes i).depth
  · -- depth reached: truncation
    have hidel : (c.nodes i).state = .DELAYED := by
      rcases hai with h1 | h1
      · exact h1
      · obtain ⟨sp2, hsp2, _, hdep2, _⟩ := h1.2
        rw [hsp] at hsp2
        injection hsp2 with hsp2
        subst hsp2
        omega
    rw [step_truncate env c i rest sp hr hs hsp hlr hdep]
    unfold setNode
    refine ⟨⟨?_, ?_, ?_, ?_⟩, ?_, ?_⟩
    · intro j hj
      replace hj : j ∈ rest := hj
      dsimp only
      rw [Function.update_noteq (fun hho => hnd.1 (by rw [← hho]; exact hj))]
      exact harest j hj
    · intro j hj
      replace hj : c.next ≤ j := hj
      dsimp only
      rw [Function.update_noteq (by omega)]
      exact hb j hj
    · intro j hj
      replace hj : j ∈ rest := hj
      show j < c.next
      exact hcrest j hj
    · exact hnd.2
    · intro j
      dsimp only
      by_cases hj : j = i
      · subst hj
        rw [Function.update_same, hidel]
        exact stepsTo_delayed _
      · rw [Function.update_noteq hj]
        exact stepsTo_refl _
    · intro j hterm
      dsimp only
      rw [Function.update_noteq (fun hho => by rw [hho, hidel] at hterm; rcases hterm with h | h <;> simp at h)]
  rcases hdp : dispatch env {c with stack := rest, result := none, trace := i :: c.trace} i
      (c.nodes i) sp with e | cD
  · rw [step_handler_err env c i rest sp e hr hs hsp hlr hdep hdp]
    refine ⟨⟨harest, hb, hcrest, hnd.2⟩, fun j => stepsTo_refl _, fun j _ => rfl⟩
    -- a successful handler call
  have hdok : DOKok sp {c with stack := rest, result := none, trace := i :: c.trace} i cD :=
    dispatch_DOK env {c with stack := rest, result := none, trace := i :: c.trace} i sp cD
      hdp hci hsp hai
  obtain ⟨d1, d2, d3, d4, d5, d6, d7⟩ := hdok
  replace d1 : c.next ≤ cD.next := d1
  replace d2 : cD.stack = rest := d2
  replace d3 : ∀ j, ¬ j = i → j < c.next → cD.nodes j = c.nodes j := d3
  replace d4 : ∀ j, cD.next ≤ j → cD.nodes j = c.nodes j := d4
  replace d5 : stepsTo (c.nodes i).state (cD.nodes i).state := d5
  replace d6 : ∀ j, ¬ j = i → c.next ≤ j → j < cD.next → (cD.nodes j).state = .DELAYED ∨ (cD.nodes j).state = .DONE := d6
  replace d7 : (cD.nodes i).state = .TO_BUILD → (cD.nodes i).spec = some sp ∧ (cD.nodes i).depth = (c.nodes i).depth ∧ (aliasType sp.type? = some "record" ∨ aliasType sp.type? = some "array") ∧ sp.method? = none ∧ (cD.nodes i).sons.Nodup ∧ (∀ j ∈ (cD.nodes i).sons, c.next ≤ j ∧ j < cD.next ∧ (cD.nodes j).state = .DELAYED) := d7
  have hBnew : ∀ j, cD.next ≤ j → cD.nodes j = defaultNode := by
    intro j hj
    rw [d4 j hj]
    exact hb j (by omega)
  have hmono : ∀ j, stepsTo (c.nodes j).state (cD.nodes j).state := by
    intro j
    by_cases hj : j = i
    · rw [hj]
      exact d5
    · by_cases hlt : j < c.next
      · rw [d3 j hj hlt]
        exact stepsTo_refl _
      · by_cases hge : cD.next ≤ j
        · rw [d4 j hge]
          exact stepsTo_refl _
        · rw [hb j (by omega)]
          exact stepsTo_delayed _
  have htermf : ∀ j, (c.nodes j).state = .DONE ∨ (c.nodes j).state = .TRUNCATED →
      cD.nodes j = c.nodes j := by
    intro j hterm
    have hjne : ¬ j = i := by
      intro hho
      rw [hho] at hterm
      rcases hai with h1 | h1
      · rw [h1] at hterm
        rcases hterm with h | h <;> simp at h
      · rw [h1.1] at hterm
        rcases hterm with h | h <;> simp at h
    have hjlt : j < c.next := by
      by_contra hge
      rw [hb j (by omega)] at hterm
      rcases hterm with h | h <;> simp [defaultNode] at h
    exact d3 j hjne hjlt
  have haD : ∀ j ∈ rest, (cD.nodes j).state = .DELAYED ∨
      ((cD.nodes j).state = .TO_BUILD ∧ TBgood env (cD.nodes j)) := by
    intro j hj
    rw [d3 j (fun hho => hnd.1 (by rw [← hho]; exact hj)) (hcrest j hj)]
    exact harest j hj
  rcases hcd : (cD.nodes i).state with _ | _ | _ | _
  · -- DELAYED result: the node is re-pushed
    rw [step_handler_delayed env c i rest sp cD hr hs hsp hlr hdep hdp hcd]
    refine ⟨⟨?_, ?_, ?_, ?_⟩, ?_, ?_⟩
    · intro j hj
      replace hj : j ∈ i :: cD.stack := hj
      rw [d2] at hj
      dsimp only
      rcases List.mem_cons.mp hj with hj | hj
      · rw [hj]
        exact Or.inl hcd
      · exact haD j hj
    · intro j hj
      replace hj : cD.next ≤ j := hj
      exact hBnew j hj
    · intro j hj
      replace hj : j ∈ i :: cD.stack := hj
      rw [d2] at hj
      show j < cD.next
      rcases List.mem_cons.mp hj with hj | hj
      · omega
      · have := hcrest j hj
        omega
    · show (i :: cD.stack).Nodup
      rw [d2, List.nodup_cons]
      exact hnd
    · exact hmono
    · exact htermf
  · -- TO_BUILD result: children pushed under the size budget
    rw [step_handler_tobuild env c i rest sp cD hr hs hsp hlr hdep hdp hcd]
    obtain ⟨t1, t2, t3, t4, t5, t6⟩ := d7 hcd
    obtain ⟨L, hLsub, hstk, hnodes, hnext⟩ :=
      pushSons_facts env {cD with stack := i :: cD.stack} ((cD.nodes i).sons)
    have hLmem : ∀ x ∈ L, x ∈ (cD.nodes i).sons := fun x hx => hLsub.subset hx
    have hLnodup : L.Nodup := t5.sublist hLsub
    have hTB : TBgood env (cD.nodes i) :=
      ⟨sp, t1, hlr, by rw [t2]; omega, t3, t4⟩
    refine ⟨⟨?_, ?_, ?_, ?_⟩, ?_, ?_⟩
    · intro j hj
      rw [hstk] at hj
      dsimp only at hj
      rw [d2] at hj
      rw [hnodes]
      rcases List.mem_append.mp hj with hj | hj
      · have hx := hLmem j (List.mem_reverse.mp hj)
        exact Or.inl (t6 j hx).2.2
      · rcases List.mem_cons.mp hj with hj | hj
        · rw [hj]
          exact Or.inr ⟨hcd, hTB⟩
        · exact haD j hj
    · intro j hj
      rw [hnext] at hj
      rw [hnodes]
      exact hBnew j hj
    · intro j hj
      rw [hstk] at hj
      dsimp only at hj
      rw [d2] at hj
      rw [hnext]
      show j < cD.next
      rcases List.mem_append.mp hj with hj | hj
      · exact (t6 j (hLmem j (List.mem_reverse.mp hj))).2.1
      · rcases List.mem_cons.mp hj with hj | hj
        · omega
        · have := hcrest j hj
          omega
    · rw [hstk]
      dsimp only
      rw [d2, List.nodup_append]
      refine ⟨List.nodup_reverse.mpr hLnodup, List.nodup_cons.mpr hnd, ?_⟩
      intro x hx1 hx2
      have hge := (t6 x (hLmem x (List.mem_reverse.mp hx1))).1
      rcases List.mem_cons.mp hx2 with hx2 | hx2
      · omega
      · have := hcrest x hx2
        omega
    · intro j
      rw [hnodes]
      exact hmono j
    · intro j hterm
      rw [hnodes]
      exact htermf j hterm
  · -- DONE result
    rw [step_handler_done env c i rest sp cD hr hs hsp hlr hdep hdp hcd]
    refine ⟨⟨?_, hBnew, ?_, by rw [d2]; exact hnd.2⟩, hmono, htermf⟩
    · intro j hj
      rw [d2] at hj
      exact haD j hj
    · intro j hj
      rw [d2] at hj
      have := hcrest j hj
      omega
  · -- TRUNCATED result
    rw [step_handler_trunc2 env c i rest sp cD hr hs hsp hlr hdep hdp hcd]
    refine ⟨⟨?_, hBnew, ?_, by rw [d2]; exact hnd.2⟩, hmono, htermf⟩
    · intro j hj
      rw [d2] at hj
      exact haD j hj
    · intro j hj
      rw [d2] at hj
      have := hcrest j hj
      omega

theorem initConf_Inv9 (env : Env) (s : Spec) : Inv9 env (initConf s) := by
  refine ⟨?_, ?_, ?_, ?_⟩
  · intro j hj
    replace hj : j ∈ [0] := hj
    simp only [List.mem_singleton] at hj
    left
    show ((if j = 0 then rootNode s else defaultNode)).state = _
    rw [if_pos hj]
    rfl
  · intro j hj
    replace hj : 1 ≤ j := hj
    show (if j = 0 then rootNode s else defaultNode) = defaultNode
    rw [if_neg (by omega)]
  · intro j hj
    replace hj : j ∈ [0] := hj
    simp only [List.mem_singleton] at hj
    show j < 1
    omega
  · show ([0] : List Nat).Nodup
    simp

theorem runN_inv9 (env : Env) : ∀ (n : Nat) (c0 : Conf), Inv9 env c0 →
    Inv9 env (runN env n c0) := by
  intro n
  induction n with
  | zero => exact fun c0 h => h
  | succ n ih =>
    intro c0 h
    show Inv9 env (runN env n (step env c0))
    exact ih (step env c0) (step_inv9 env c0 h).1

theorem runN_frozen (env : Env) : ∀ (m : Nat) (c0 : Conf), Inv9 env c0 →
    ∀ i, (c0.nodes i).state = .DONE ∨ (c0.nodes i).state = .TRUNCATED →
      (runN env m c0).nodes i = c0.nodes i ∧ i ∉ (runN env m c0).stack := by
  intro m
  induction m with
  | zero =>
    intro c0 h i hterm
    refine ⟨rfl, ?_⟩
    intro hmem
    rcases h.1 i hmem with h1 | h1
    · rcases hterm with ht | ht <;> rw [ht] at h1 <;> simp at h1
    · rcases hterm with ht | ht <;> rw [ht] at h1 <;> simp at h1
  | succ m ih =>
    intro c0 h i hterm
    have hstep := step_inv9 env c0 h
    have hfrozen := hstep.2.2 i hterm
    have hterm2 : ((step env c0).nodes i).state = .DONE ∨
        ((step env c0).nodes i).state = .TRUNCATED := by
      rw [hfrozen]
      exact hterm
    have hres := ih (step env c0) hstep.1 i hterm2
    show (runN env m (step env c0)).nodes i = c0.nodes i ∧
      i ∉ (runN env m (step env c0)).stack
    rw [hres.1, hfrozen]
    exact ⟨rfl, hres.2⟩

/-- C9: during one `generate` call, every node's state moves only forward
along `DELAYED → {TO_BUILD | DONE | TRUNCATED}` and `TO_BUILD → DONE`; a
node whose state has reached DONE or TRUNCATED keeps that node record
verbatim for the rest of the run and never reappears on the work stack
(only the stack's head is ever dispatched), so it is neither dispatched
again nor has its state changed again. -/
theorem C9_state_machine (env : Env) (s : Spec) (n m i : Nat) (hnm : n ≤ m) :
    stepsTo ((runN env n (initConf s)).nodes i).state
      ((runN env (n + 1) (initConf s)).nodes i).state ∧
    (((runN env n (initConf s)).nodes i).state = .DONE ∨
     ((runN env n (initConf s)).nodes i).state = .TRUNCATED →
      (runN env m (initConf s)).nodes i = (runN env n (initConf s)).nodes i ∧
      i ∉ (runN env m (initConf s)).stack) := by
  have hinv := runN_inv9 env n (initConf s) (initConf_Inv9 env s)
  constructor
  · have hstep := step_inv9 env (runN env n (initConf s)) hinv
    have heq : runN env (n + 1) (initConf s) =
        step env (runN env n (initConf s)) := by
      rw [runN_add env n 1]
      rfl
    rw [heq]
    exact hstep.2.1 i
  · intro hterm
    have heq : runN env m (initConf s) =
        runN env (m - n) (runN env n (initConf s)) := by
      rw [← runN_add env n (m - n)]
      congr 1
      omega
    rw [heq]
    exact runN_frozen env (m - n) (runN env n (initConf s)) hinv i hterm

/-- Witness for C9: a fixed-value spec resolves its root in one step, and
the DONE root stays frozen and off the stack afterwards. -/
theorem C9_state_machine_witness :
    1 ≤ 2 ∧
    (stepsTo ((runN enumEnv 1 (initConf fixedNullSpec)).nodes 0).state
      ((runN enumEnv 2 (initConf fixedNullSpec)).nodes 0).state ∧
    (((runN enumEnv 1 (initConf fixedNullSpec)).nodes 0).state = .DONE ∨
     ((runN enumEnv 1 (initConf fixedNullSpec)).nodes 0).state = .TRUNCATED →
      (runN enumEnv 2 (initConf fixedNullSpec)).nodes 0 =
        (runN enumEnv 1 (initConf fixedNullSpec)).nodes 0 ∧
      0 ∉ (runN enumEnv 2 (initConf fixedNullSpec)).stack)) :=
  ⟨by decide, C9_state_machine enumEnv fixedNullSpec 1 2 0 (by decide)⟩
